import Mathlib

/-!
Verification of the Tauri HTML transform plugin of `vite.config.ts`
(repository All-Model-Chat).

The plugin `tauriHtmlTransform` rewrites the entry HTML document by a
fixed sequence of JavaScript `String.prototype.replace` calls with global
regexes, gated on the `TAURI_PLATFORM` environment variable.  We embed the
regexes by a small regex AST covering exactly the constructs used by the
source (case-insensitive literals, single-character classes, greedy and
lazy character-class stars, option, capture groups) together with a
backtracking matcher that reproduces JavaScript semantics: alternatives
and greedy quantifiers try the longest alternative first and backtrack on
continuation failure, lazy quantifiers try the shortest first, and global
replace scans left to right, resuming after each match.
-/

namespace AMC

/-- ASCII lower-casing, the effect of the `i` regex flag on the characters
occurring in the source patterns. -/
def lc (c : Char) : Char :=
  match c with
  | 'A' => 'a' | 'B' => 'b' | 'C' => 'c' | 'D' => 'd' | 'E' => 'e'
  | 'F' => 'f' | 'G' => 'g' | 'H' => 'h' | 'I' => 'i' | 'J' => 'j'
  | 'K' => 'k' | 'L' => 'l' | 'M' => 'm' | 'N' => 'n' | 'O' => 'o'
  | 'P' => 'p' | 'Q' => 'q' | 'R' => 'r' | 'S' => 's' | 'T' => 't'
  | 'U' => 'u' | 'V' => 'v' | 'W' => 'w' | 'X' => 'x' | 'Y' => 'y'
  | 'Z' => 'z'
  | c => c

/-- Character equality as used when matching a pattern literal: exact for a
case-sensitive regex, up to ASCII case for an `i`-flagged regex. -/
def chEq (ci : Bool) (p c : Char) : Bool :=
  if ci then lc c == lc p else c == p

/-- The JavaScript `\s` character class. -/
def jsWs (c : Char) : Bool :=
  c == ' ' || c == '\t' || c == '\n' || c == '\x0b' || c == '\x0c' || c == '\r' ||
  c == '\u00A0' || c == '\u1680' || ('\u2000' ≤ c && c ≤ '\u200A') ||
  c == '\u2028' || c == '\u2029' || c == '\u202F' || c == '\u205F' ||
  c == '\u3000' || c == '\uFEFF'

/-- The `[ \t]` character class. -/
def sptab (c : Char) : Bool := c == ' ' || c == '\t'

/-- The `[^>]` character class. -/
def notGt (c : Char) : Bool := !(c == '>')

/-- The `[^"]` character class. -/
def notQuote (c : Char) : Bool := !(c == '"')

/-- The `[\s\S]` character class. -/
def anyChar (_ : Char) : Bool := true

/-- Regex abstract syntax: exactly the constructs appearing in the source
patterns of `vite.config.ts`. -/
inductive RE : Type where
  | eps : RE
  | lit : Bool → List Char → RE
  | cls : (Char → Bool) → RE
  | opt : RE → RE
  | star : (Char → Bool) → RE
  | lazystar : (Char → Bool) → RE
  | seq : RE → RE → RE
  | group : RE → RE

/-- Right-nested sequencing of a list of regexes. -/
def seqs : List RE → RE :=
  fun rs => rs.foldr RE.seq RE.eps

/-- Strip a pattern literal from the front of the input, or fail. -/
def litStrip (ci : Bool) : List Char → List Char → Option (List Char)
  | [], s => some s
  | _ :: _, [] => none
  | p :: ps, c :: cs => if chEq ci p c then litStrip ci ps cs else none

/-- Greedy character-class star in continuation-passing style: consume as
many class characters as possible and try the continuation at each stop,
longest consumption first (JavaScript greedy backtracking). -/
def starRun {β : Type} (q : Char → Bool) (k : List Char → Option β) :
    List Char → Option β
  | [] => k []
  | c :: rest =>
    if q c then (starRun q k rest) <|> k (c :: rest) else k (c :: rest)

/-- Lazy character-class star: try the continuation first, then consume one
more class character (JavaScript lazy backtracking, used by `[\s\S]*?`). -/
def lazyRun {β : Type} (q : Char → Bool) (k : List Char → Option β) :
    List Char → Option β
  | [] => k []
  | c :: rest =>
    k (c :: rest) <|> (if q c then lazyRun q k rest else none)

/-- The backtracking matcher in continuation-passing style.  The
continuation receives the remaining input and the list of capture-group
contents produced by this regex (in completion order; the source patterns
never nest groups, so this coincides with JavaScript group numbering). -/
def mrun {β : Type} : RE → List Char → (List Char → List (List Char) → Option β) →
    Option β
  | .eps, s, k => k s []
  | .lit ci p, s, k =>
    match litStrip ci p s with
    | some rest => k rest []
    | none => none
  | .cls q, s, k =>
    match s with
    | [] => none
    | c :: rest => if q c then k rest [] else none
  | .opt r, s, k => (mrun r s fun s2 caps => k s2 caps) <|> k s []
  | .star q, s, k => starRun q (fun s2 => k s2 []) s
  | .lazystar q, s, k => lazyRun q (fun s2 => k s2 []) s
  | .seq r1 r2, s, k =>
    mrun r1 s fun s1 c1 => mrun r2 s1 fun s2 c2 => k s2 (c1 ++ c2)
  | .group r, s, k =>
    mrun r s fun s2 caps => k s2 (caps ++ [s.take (s.length - s2.length)])

/-- Try to match the regex at the very start of `s`; on success return the
number of consumed characters and the captures. -/
def matchAt (r : RE) (s : List Char) : Option (Nat × List (List Char)) :=
  mrun r s fun s2 caps => some (s.length - s2.length, caps)

/-- One global-replace pass (`String.prototype.replace` with the `g` flag):
scan left to right, at each position try the regex; on a match emit the
replacement (built from the captures) and resume after the match; an empty
match additionally copies one character, as JavaScript advances
`lastIndex` past an empty match.  `fuel` is an upper bound on the number
of scanning steps; `applyRule` supplies `s.length + 1`, which is always
sufficient, so the fuel never runs out. -/
def goRep (r : RE) (t : List (List Char) → List Char) :
    Nat → List Char → List Char
  | 0, s => s
  | _ + 1, [] =>
    match matchAt r [] with
    | some (_, caps) => t caps
    | none => []
  | f + 1, c :: rest =>
    match matchAt r (c :: rest) with
    | some (n, caps) =>
      if n = 0 then t caps ++ c :: goRep r t f rest
      else t caps ++ goRep r t f ((c :: rest).drop n)
    | none => c :: goRep r t f rest

/-- `s.replace(re, tmpl)` with a global regex. -/
def applyRule (r : RE) (t : List (List Char) → List Char) (s : List Char) :
    List Char :=
  goRep r t (s.length + 1) s

/-- `/[ \t]*<script\s[^>]*src\s*=\s*"https?:\/\/cdn\.tailwindcss\.com[^"]*"[^>]*><\/script>\s*\n?/gi` -/
def tailwindRE : RE :=
  seqs [.star sptab, .lit true "<script".data, .cls jsWs, .star notGt,
    .lit true "src".data, .star jsWs, .lit true "=".data, .star jsWs,
    .lit true "\"".data, .lit true "http".data, .opt (.lit true "s".data),
    .lit true "://cdn.tailwindcss.com".data, .star notQuote,
    .lit true "\"".data, .star notGt, .lit true "></script>".data,
    .star jsWs, .opt (.lit true "\n".data)]

/-- Rule 1: delete the Tailwind CDN script tag. -/
def tailwindRule (s : List Char) : List Char :=
  applyRule tailwindRE (fun _ => []) s

/-- `new RegExp('href\\s*=\\s*"https?://[^"]*' + escapedFile + '"', 'gi')`
for one entry of `themeCssMap` (the escaping makes the filename literal). -/
def themeRE (cdnFile : List Char) : RE :=
  seqs [.lit true "href".data, .star jsWs, .lit true "=".data, .star jsWs,
    .lit true "\"".data, .lit true "http".data, .opt (.lit true "s".data),
    .lit true "://".data, .star notQuote, .lit true cdnFile,
    .lit true "\"".data]

/-- The replacement string `href="${localPath}"`. -/
def themeRepl (localPath : List Char) : List Char :=
  "href=\"".data ++ localPath ++ "\"".data

/-- The `themeCssMap` record, in insertion order (`Object.entries` preserves
insertion order for non-numeric string keys). -/
def themeCssMap : List (List Char × List Char) :=
  [("github-markdown-dark.min.css".data, "./vendor/css/github-markdown-dark.min.css".data),
   ("github-markdown.min.css".data, "./vendor/css/github-markdown.min.css".data),
   ("a11y-dark.min.css".data, "./vendor/css/a11y-dark.min.css".data),
   ("a11y-light.min.css".data, "./vendor/css/a11y-light.min.css".data)]

/-- One iteration of the `for (const [cdnFile, localPath] of Object.entries(themeCssMap))` loop. -/
def themeStep (s : List Char) (e : List Char × List Char) : List Char :=
  applyRule (themeRE e.1) (fun _ => themeRepl e.2) s

/-- Rule 2: the whole theme-CSS loop. -/
def themeRules (s : List Char) : List Char :=
  themeCssMap.foldl themeStep s

/-- `/[ \t]*<link\s[^>]*href\s*=\s*"https?:\/\/[^"]*MARKER[^"]*"[^>]*\/?>\s*\n?/gi`,
the shared shape of the font-awesome and katex link-deletion regexes. -/
def linkDelRE (marker : List Char) : RE :=
  seqs [.star sptab, .lit true "<link".data, .cls jsWs, .star notGt,
    .lit true "href".data, .star jsWs, .lit true "=".data, .star jsWs,
    .lit true "\"".data, .lit true "http".data, .opt (.lit true "s".data),
    .lit true "://".data, .star notQuote, .lit true marker, .star notQuote,
    .lit true "\"".data, .star notGt, .opt (.lit true "/".data),
    .lit true ">".data, .star jsWs, .opt (.lit true "\n".data)]

/-- Rule 3a: delete font-awesome link tags. -/
def faRule (s : List Char) : List Char :=
  applyRule (linkDelRE "font-awesome".data) (fun _ => []) s

/-- Rule 3b: delete katex link tags. -/
def katexRule (s : List Char) : List Char :=
  applyRule (linkDelRE "katex".data) (fun _ => []) s

/-- `/[ \t]*<link\s[^>]*href\s*=\s*"https?:\/\/esm\.sh\/react-pdf[^"]*\.css"[^>]*\/?>\s*\n?/gi` -/
def reactPdfRE : RE :=
  seqs [.star sptab, .lit true "<link".data, .cls jsWs, .star notGt,
    .lit true "href".data, .star jsWs, .lit true "=".data, .star jsWs,
    .lit true "\"".data, .lit true "http".data, .opt (.lit true "s".data),
    .lit true "://esm.sh/react-pdf".data, .star notQuote,
    .lit true ".css".data, .lit true "\"".data, .star notGt,
    .opt (.lit true "/".data), .lit true ">".data, .star jsWs,
    .opt (.lit true "\n".data)]

/-- Rule 3c: delete the react-pdf stylesheet link tags. -/
def reactPdfRule (s : List Char) : List Char :=
  applyRule reactPdfRE (fun _ => []) s

/-- `/(<script\s[^>]*src\s*=\s*")https?:\/\/[^"]*FILE("[^>]*><\/script>)/gi`,
the shared shape of the viz.js and full.render.js redirect regexes. -/
def scriptRedirRE (file : List Char) : RE :=
  seqs [.group (seqs [.lit true "<script".data, .cls jsWs, .star notGt,
      .lit true "src".data, .star jsWs, .lit true "=".data, .star jsWs,
      .lit true "\"".data]),
    .lit true "http".data, .opt (.lit true "s".data), .lit true "://".data,
    .star notQuote, .lit true file,
    .group (seqs [.lit true "\"".data, .star notGt,
      .lit true "></script>".data])]

/-- The `'$1' + localPath + '$2'` replacement template. -/
def redirTmpl (localPath : List Char) (caps : List (List Char)) : List Char :=
  caps.getD 0 [] ++ localPath ++ caps.getD 1 []

/-- Rule 4a: redirect viz.js script URLs to `./vendor/js/viz.js`. -/
def vizRule (s : List Char) : List Char :=
  applyRule (scriptRedirRE "/viz.js".data)
    (redirTmpl "./vendor/js/viz.js".data) s

/-- Rule 4b: redirect full.render.js script URLs to `./vendor/js/full.render.js`. -/
def frenderRule (s : List Char) : List Char :=
  applyRule (scriptRedirRE "/full.render.js".data)
    (redirTmpl "./vendor/js/full.render.js".data) s

/-- `/[ \t]*<script\s[^>]*src\s*=\s*"https?:\/\/[^"]*html2pdf[^"]*"[^>]*><\/script>\s*\n?/gi` -/
def html2pdfRE : RE :=
  seqs [.star sptab, .lit true "<script".data, .cls jsWs, .star notGt,
    .lit true "src".data, .star jsWs, .lit true "=".data, .star jsWs,
    .lit true "\"".data, .lit true "http".data, .opt (.lit true "s".data),
    .lit true "://".data, .star notQuote, .lit true "html2pdf".data,
    .star notQuote, .lit true "\"".data, .star notGt,
    .lit true "></script>".data, .star jsWs, .opt (.lit true "\n".data)]

/-- The fixed replacement emitted by the html2pdf rule. -/
def html2pdfRepl : List Char :=
  "  <script src=\"./vendor/js/html2pdf.bundle.min.js\"></script>\n".data

/-- Rule 4c: replace the html2pdf CDN script tag by the fixed local tag. -/
def html2pdfRule (s : List Char) : List Char :=
  applyRule html2pdfRE (fun _ => html2pdfRepl) s

/-- `/[ \t]*<script\s+type\s*=\s*"importmap"[\s\S]*?<\/script>\s*\n?/gi` -/
def importmapRE : RE :=
  seqs [.star sptab, .lit true "<script".data, .cls jsWs, .star jsWs,
    .lit true "type".data, .star jsWs, .lit true "=".data, .star jsWs,
    .lit true "\"importmap\"".data, .lazystar anyChar,
    .lit true "</script>".data, .star jsWs, .opt (.lit true "\n".data)]

/-- Rule 5: delete the importmap block. -/
def importmapRule (s : List Char) : List Char :=
  applyRule importmapRE (fun _ => []) s

/-- `/[ \t]*COMMENT\s*\n?/g` — case sensitive, no `i` flag. -/
def commentRE (comment : List Char) : RE :=
  seqs [.star sptab, .lit false comment, .star jsWs,
    .opt (.lit false "\n".data)]

/-- Rule 6: delete the three marker comments. -/
def commentRules (s : List Char) : List Char :=
  applyRule (commentRE "<!-- HTML2PDF -->".data) (fun _ => [])
    (applyRule (commentRE "<!-- Graphviz scripts -->".data) (fun _ => [])
      (applyRule (commentRE "<!-- React PDF Styles -->".data) (fun _ => []) s))

/-- The whole rule pipeline, in source order: Tailwind deletion, the four
theme redirects, the three link deletions, the two script redirects, the
html2pdf replacement, the importmap deletion, the comment deletions. -/
def transformPipeline (s : List Char) : List Char :=
  commentRules (importmapRule (html2pdfRule (frenderRule (vizRule
    (reactPdfRule (katexRule (faRule (themeRules (tailwindRule s)))))))))

/-- `transformIndexHtml(html)`: if `process.env.TAURI_PLATFORM` is
`undefined` the input is returned unchanged; otherwise the pipeline runs.
The environment variable is modelled by an `Option String`. -/
def transformIndexHtml (tauriPlatform : Option String) (html : String) : String :=
  match tauriPlatform with
  | none => html
  | some _ => String.mk (transformPipeline html.data)

inductive Matches : RE → List Char → List (List Char) → Prop where
  | eps : Matches .eps [] []
  | lit (ci : Bool) (p t : List Char) (h : litStrip ci p t = some []) :
      Matches (.lit ci p) t []
  | cls (q : Char → Bool) (c : Char) (h : q c = true) : Matches (.cls q) [c] []
  | optSome (r : RE) (t : List Char) (caps : List (List Char))
      (h : Matches r t caps) : Matches (.opt r) t caps
  | optNone (r : RE) : Matches (.opt r) [] []
  | star (q : Char → Bool) (t : List Char) (h : ∀ c ∈ t, q c = true) :
      Matches (.star q) t []
  | lazystar (q : Char → Bool) (t : List Char) (h : ∀ c ∈ t, q c = true) :
      Matches (.lazystar q) t []
  | seq (r1 r2 : RE) (t1 t2 : List Char) (c1 c2 : List (List Char))
      (h1 : Matches r1 t1 c1) (h2 : Matches r2 t2 c2) :
      Matches (.seq r1 r2) (t1 ++ t2) (c1 ++ c2)
  | group (r : RE) (t : List Char) (caps : List (List Char))
      (h : Matches r t caps) : Matches (.group r) t (caps ++ [t])

/-- Does `s` start with the pattern `p` (up to ASCII case when `ci`)? -/
def startsL (ci : Bool) (p s : List Char) : Bool :=
  (litStrip ci p s).isSome

/-- Does the pattern `p` occur anywhere in `s`? -/
def occursL (ci : Bool) (p : List Char) : List Char → Bool
  | [] => startsL ci p []
  | c :: rest => startsL ci p (c :: rest) || occursL ci p rest

/-- The literals that every successful match of the regex must contain
(those not guarded by `opt`, `star` or `lazystar`). -/
def mandLits : RE → List (Bool × List Char)
  | .eps => []
  | .lit ci p => [(ci, p)]
  | .cls _ => []
  | .opt _ => []
  | .star _ => []
  | .lazystar _ => []
  | .seq a b => mandLits a ++ mandLits b
  | .group r => mandLits r

/-- The absence of every marker recognized by the rule pipeline: the
Tailwind CDN host, the four theme filenames, the font-awesome, katex and
esm.sh react-pdf link markers, the viz.js and full.render.js filenames,
the html2pdf marker, the importmap type value, and the three literal
marker comments (the latter case-sensitively, as their regexes carry no
`i` flag). -/
def markersAbsent (doc : List Char) : Prop :=
  occursL true "cdn.tailwindcss.com".data doc = false ∧
  occursL true "github-markdown-dark.min.css".data doc = false ∧
  occursL true "github-markdown.min.css".data doc = false ∧
  occursL true "a11y-dark.min.css".data doc = false ∧
  occursL true "a11y-light.min.css".data doc = false ∧
  occursL true "font-awesome".data doc = false ∧
  occursL true "katex".data doc = false ∧
  occursL true "esm.sh/react-pdf".data doc = false ∧
  occursL true "viz.js".data doc = false ∧
  occursL true "full.render.js".data doc = false ∧
  occursL true "html2pdf".data doc = false ∧
  occursL true "importmap".data doc = false ∧
  occursL false "<!-- React PDF Styles -->".data doc = false ∧
  occursL false "<!-- Graphviz scripts -->".data doc = false ∧
  occursL false "<!-- HTML2PDF -->".data doc = false

def tryTails {β : Type} (k : List Char → Option β) :
    List Char → List Char → Option β
  | [], v => k v
  | c :: u, v => tryTails k u v <|> k (c :: u ++ v)

/-- Like `tryTails`, but without the full-`u` stop: only the stops that
consume at least one character of `u` remain unconsumed, i.e. `k` runs on
the nonempty suffixes of `u` (appended to `v`), shortest first. -/
def tryTailsNe {β : Type} (k : List Char → Option β) :
    List Char → List Char → Option β
  | [], _ => none
  | c :: u, v => tryTailsNe k u v <|> k (c :: u ++ v)

/-- A document that exercises every rule of the pipeline. -/
def canonicalDoc : List Char :=
  ("<head>\n" ++
   "  <!-- React PDF Styles -->\n" ++
   "  <script src=\"https://cdn.tailwindcss.com\"></script>\n" ++
   "  <link href=\"https://c.dn/github-markdown-dark.min.css\" id=\"a\">\n" ++
   "  <link href=\"https://c.dn/github-markdown.min.css\" disabled>\n" ++
   "  <link href=\"https://c.dn/a11y-dark.min.css\">\n" ++
   "  <link href=\"https://c.dn/a11y-light.min.css\">\n" ++
   "  <link href=\"https://c.dn/font-awesome.css\">\n" ++
   "  <link href=\"https://c.dn/katex.css\">\n" ++
   "  <link href=\"https://esm.sh/react-pdf@7/x.css\">\n" ++
   "  <!-- Graphviz scripts -->\n" ++
   "  <script src=\"https://c.dn/viz.js\"></script>\n" ++
   "  <script src=\"https://c.dn/full.render.js\"></script>\n" ++
   "  <!-- HTML2PDF -->\n" ++
   "  <script src=\"https://c.dn/html2pdf.js\"></script>\n" ++
   "  <script type=\"importmap\">\n    \x7b\"imports\": \x7b\x7d\x7d\n  </script>\n" ++
   "</head>\n").data

/-- A document on which the pipeline is not idempotent: the importmap rule
deletes the inner block, splicing its flanks into a fresh Tailwind script
tag, which the (earlier) Tailwind rule of a second pass then deletes. -/
def importmapSpliceDoc : List Char :=
  "<script src=\"https://cdn.tailwindcss.com<script type=\"importmap\">x</script>\"></script>".data

/-- The Tailwind CDN script tag of claim C4. -/
def tailwindTag : List Char :=
  "<script src=\"https://cdn.tailwindcss.com\"></script>".data

/-- A document containing the Tailwind tag whose deletion splices the
flanking text into a second copy of the very same tag. -/
def tailwindSpliceDoc : List Char :=
  "  <scr".data ++ tailwindTag ++
    "ipt src=\"https://cdn.tailwindcss.com\"></script>".data

/-- A document whose importmap block is deleted but which contains a
second occurrence of the word `importmap` outside the block. -/
def strayImportmapDoc : List Char :=
  "<script type=\"importmap\">\x7b\x7d</script>\nimportmap".data

/-- A five-line importmap block with JSON content, followed by an
unrelated script element. -/
def importmapBlockDoc : List Char :=
  ("<head>\n" ++
   "  <script type=\"importmap\">\n" ++
   "  \x7b\n" ++
   "    \"imports\": \x7b \"react\": \"https://esm.sh/react\" \x7d\n" ++
   "  \x7d\n" ++
   "  </script>\n" ++
   "  <script>app()</script>\n" ++
   "</head>\n").data

/-- A font-awesome link whose href value is missing its closing quote,
followed by an unrelated tag. -/
def faSwallowDoc : List Char :=
  "<link href=\"https://font-awesome.css><p class=\"a\">x".data

/-! ## Group-free regexes never produce captures -/
/-- Does the regex contain no capture group? -/
def groupFree : RE → Bool
  | .eps => true
  | .lit _ _ => true
  | .cls _ => true
  | .opt r => groupFree r
  | .star _ => true
  | .lazystar _ => true
  | .seq a b => groupFree a && groupFree b
  | .group _ => false

/-- The matcher without capture bookkeeping; `mrun` coincides with it on
group-free regexes, which removes the capture plumbing from symbolic
evaluations. -/
def mrunNC {β : Type} : RE → List Char → (List Char → Option β) → Option β
  | .eps, s, k => k s
  | .lit ci p, s, k =>
    match litStrip ci p s with
    | some rest => k rest
    | none => none
  | .cls q, s, k =>
    match s with
    | [] => none
    | c :: rest => if q c then k rest else none
  | .opt r, s, k => (mrunNC r s k) <|> k s
  | .star q, s, k => starRun q k s
  | .lazystar q, s, k => lazyRun q k s
  | .seq r1 r2, s, k => mrunNC r1 s fun s1 => mrunNC r2 s1 k
  | .group r, s, k => mrunNC r s k

/-! ## The `[^"]*` star followed by a literal and a closing quote -/
/-- The continuation shape that follows a `[^"]*` star in the theme
regexes: strip the filename literal, then the closing quote, then go on. -/
def bindQuote {β : Type} (L : List Char) (Kq : List Char → Option β)
    (s2 : List Char) : Option β :=
  (litStrip true L s2).bind fun s3 => (litStrip true ['"'] s3).bind Kq

/-- The head of the tag fragment matched by every theme regex. -/
def hrefHead : List Char := "href=\"https://".data

/-- The link-tag context used by the theme-redirect theorems. -/
def linkPre : List Char := "<link rel=\"stylesheet\" ".data

/-- The trailing attributes of the link tag used by claim C3: an `id` and
a `disabled` toggle. -/
def c3B : List Char := " id=\"hljs-dark\" disabled />".data

/-- The document of claim C3 for one theme filename: a link tag whose
href is an absolute URL with an arbitrary CDN prefix `p` ending in the
filename, followed by the id/disabled attributes. -/
def c3doc (nm p : List Char) : List Char :=
  linkPre ++ (hrefHead ++ (p ++ (nm ++ ('"' :: c3B))))

/-- The tag fragment after the first character of `href`, used to state
that the document contains no second `href`. -/
def c3tail (nm p : List Char) : List Char :=
  "ref=\"https://".data ++ (p ++ (nm ++ ('"' :: c3B)))

/-- A Tailwind CDN script tag: the URL continues with `u` after the CDN
host and the tag carries extra attribute text `b` after the URL. -/
def c4tag (u b : List Char) : List Char :=
  "<script src=\"https://cdn.tailwindcss.com".data ++
    (u ++ ('"' :: (b ++ "></script>".data)))

/-- The `[^>]*`-scanned middle of the Tailwind tag. -/
def c4M (u b : List Char) : List Char :=
  "src=\"https://cdn.tailwindcss.com".data ++ (u ++ ('"' :: b))

/-- The part of the claim C4 document after the head line: indentation,
the Tailwind tag, its line break and the closing head tag. -/
def c4v (u b : List Char) : List Char :=
  "  <script ".data ++ (c4M u b ++ ('>' :: '<' :: "/script>\n</head>".data))

/-- The claim C4 document. -/
def c4doc (u b : List Char) : List Char :=
  "<head>\n".data ++ c4v u b

/-- The base continuation of the claim C4 match evaluation. -/
def c4K0 (u b : List Char) : List Char → Option (Nat × List (List Char)) :=
  fun s4 => some ((c4v u b).length - s4.length, [])

/-- The continuation waiting after the first `[^>]*` of the Tailwind
regex. -/
def c4K1 (u b : List Char) : List Char → Option (Nat × List (List Char)) :=
  fun s2 => mrunNC (seqs [.lit true "src".data, .star jsWs, .lit true "=".data,
    .star jsWs, .lit true "\"".data, .lit true "http".data,
    .opt (.lit true "s".data), .lit true "://cdn.tailwindcss.com".data,
    .star notQuote, .lit true "\"".data, .star notGt,
    .lit true "></script>".data, .star jsWs, .opt (.lit true "\n".data)])
    s2 (c4K0 u b)

/-- The continuation waiting after the `[^"]*` of the Tailwind regex. -/
def c4K2 (u b : List Char) : List Char → Option (Nat × List (List Char)) :=
  fun s2 => mrunNC (seqs [.lit true "\"".data, .star notGt,
    .lit true "></script>".data, .star jsWs, .opt (.lit true "\n".data)])
    s2 (c4K0 u b)

/-- The continuation waiting after the second `[^>]*` of the Tailwind
regex. -/
def c4K3 (u b : List Char) : List Char → Option (Nat × List (List Char)) :=
  fun s2 => mrunNC (seqs [.lit true "></script>".data, .star jsWs,
    .opt (.lit true "\n".data)]) s2 (c4K0 u b)

/-- An html2pdf CDN script tag: URL `https://` ++ `u1` ++ `html2pdf` ++
`u2`, extra attribute text `b` after the URL. -/
def c6tag (u1 u2 b : List Char) : List Char :=
  "<script src=\"https://".data ++
    (u1 ++ ("html2pdf".data ++ (u2 ++ ('"' :: (b ++ "></script>".data)))))

/-- The `[^>]*`-scanned middle of the html2pdf tag. -/
def c6M (u1 u2 b : List Char) : List Char :=
  "src=\"https://".data ++ (u1 ++ ("html2pdf".data ++ (u2 ++ ('"' :: b))))

/-- The part of the claim C6 document after the head line. -/
def c6v (u1 u2 b : List Char) : List Char :=
  "  <script ".data ++ (c6M u1 u2 b ++ ('>' :: '<' :: "/script>\n</head>".data))

/-- The claim C6 document. -/
def c6doc (u1 u2 b : List Char) : List Char :=
  "<head>\n".data ++ c6v u1 u2 b

/-- The base continuation of the claim C6 match evaluation. -/
def c6K0 (u1 u2 b : List Char) : List Char → Option (Nat × List (List Char)) :=
  fun s4 => some ((c6v u1 u2 b).length - s4.length, [])

/-- The continuation waiting after the `[^>]*` of the html2pdf regex. -/
def c6K1 (u1 u2 b : List Char) : List Char → Option (Nat × List (List Char)) :=
  fun s2 => mrunNC (seqs [.lit true "src".data, .star jsWs, .lit true "=".data,
    .star jsWs, .lit true "\"".data, .lit true "http".data,
    .opt (.lit true "s".data), .lit true "://".data, .star notQuote,
    .lit true "html2pdf".data, .star notQuote, .lit true "\"".data,
    .star notGt, .lit true "></script>".data, .star jsWs,
    .opt (.lit true "\n".data)]) s2 (c6K0 u1 u2 b)

/-- The continuation waiting after the first `[^"]*` of the html2pdf
regex. -/
def c6K2 (u1 u2 b : List Char) : List Char → Option (Nat × List (List Char)) :=
  fun s2 => mrunNC (seqs [.lit true "html2pdf".data, .star notQuote,
    .lit true "\"".data, .star notGt, .lit true "></script>".data,
    .star jsWs, .opt (.lit true "\n".data)]) s2 (c6K0 u1 u2 b)

/-- The continuation waiting after the second `[^"]*` of the html2pdf
regex. -/
def c6K3 (u1 u2 b : List Char) : List Char → Option (Nat × List (List Char)) :=
  fun s2 => mrunNC (seqs [.lit true "\"".data, .star notGt,
    .lit true "></script>".data, .star jsWs, .opt (.lit true "\n".data)])
    s2 (c6K0 u1 u2 b)

/-- The continuation waiting after the final `[^>]*` of the html2pdf
regex. -/
def c6K4 (u1 u2 b : List Char) : List Char → Option (Nat × List (List Char)) :=
  fun s2 => mrunNC (seqs [.lit true "></script>".data, .star jsWs,
    .opt (.lit true "\n".data)]) s2 (c6K0 u1 u2 b)

/-- The `[^>]*`-scanned middle of the viz.js tag. -/
def c9M (u b : List Char) : List Char :=
  "src=\"https://".data ++ (u ++ ("/viz.js".data ++ ('"' :: b)))

/-- The part of the claim C9 viz.js document after the head line. -/
def c9v (a u b : List Char) : List Char :=
  "<script ".data ++ ((a ++ c9M u b) ++ ('>' :: '<' :: "/script>\n</head>".data))

/-- The claim C9 viz.js document. -/
def c9doc (a u b : List Char) : List Char :=
  "<head>\n".data ++ c9v a u b

/-- The input remaining after the first capture group of the viz.js
regex. -/
def c9s3 (u b : List Char) : List Char :=
  "https://".data ++ ((u ++ ("/viz.js".data ++ ('"' :: b))) ++
    ('>' :: '<' :: "/script>\n</head>".data))

/-- The input at the start of the second capture group of the viz.js
regex. -/
def c9s5 (b : List Char) : List Char :=
  '"' :: (b ++ ('>' :: '<' :: "/script>\n</head>".data))

/-- The text captured by the first group of the viz.js regex. -/
def c9cap1 (a u b : List Char) : List Char :=
  (c9v a u b).take ((c9v a u b).length - (c9s3 u b).length)

/-- The continuation waiting after the `[^>]*` of the viz.js regex. -/
def c9K1 (a u b : List Char) : List Char → Option (Nat × List (List Char)) :=
  fun s2 => mrun (seqs [.lit true "src".data, .star jsWs, .lit true "=".data,
    .star jsWs, .lit true "\"".data]) s2
    (fun s3 c3 => mrun (seqs [.lit true "http".data, .opt (.lit true "s".data),
      .lit true "://".data, .star notQuote, .lit true "/viz.js".data,
      .group (seqs [.lit true "\"".data, .star notGt,
        .lit true "></script>".data])]) s3
      (fun s4 c4 => some ((c9v a u b).length - s4.length,
        (c3 ++ [(c9v a u b).take ((c9v a u b).length - s3.length)]) ++ c4)))

/-- The continuation waiting after the `[^"]*` of the viz.js regex. -/
def c9K2 (a u b : List Char) : List Char → Option (Nat × List (List Char)) :=
  fun s2 => mrun (seqs [.lit true "/viz.js".data,
    .group (seqs [.lit true "\"".data, .star notGt,
      .lit true "></script>".data])]) s2
    (fun s5 c5 => some ((c9v a u b).length - s5.length, [c9cap1 a u b] ++ c5))

/-- The continuation waiting after the second group's `[^>]*` of the
viz.js regex. -/
def c9K3 (a u b : List Char) : List Char → Option (Nat × List (List Char)) :=
  fun s2 => mrun (seqs [.lit true "></script>".data]) s2
    (fun s6 c6 => some ((c9v a u b).length - s6.length,
      [c9cap1 a u b] ++ (c6 ++ [(c9s5 b).take ((c9s5 b).length - s6.length)])))

/-- A viz.js CDN script tag with attribute text `a` before `src`, URL
host/path `u` and attribute text `b` after the URL. -/
def c9tagViz (a u b : List Char) : List Char :=
  "<script ".data ++ (a ++ ("src=\"https://".data ++
    (u ++ ("/viz.js".data ++ ('"' :: (b ++ "></script>".data))))))

/-- The viz.js tag after the redirect: only the URL replaced. -/
def c9tagVizLocal (a b : List Char) : List Char :=
  "<script ".data ++ (a ++ ("src=\"./vendor/js/viz.js".data ++
    ('"' :: (b ++ "></script>".data))))

/-- The `[^>]*`-scanned middle of the full.render.js tag. -/
def c9FM (u b : List Char) : List Char :=
  "src=\"https://".data ++ (u ++ ("/full.render.js".data ++ ('"' :: b)))

/-- The part of the claim C9 full.render.js document after the head line. -/
def c9Fv (a u b : List Char) : List Char :=
  "<script ".data ++ ((a ++ c9FM u b) ++ ('>' :: '<' :: "/script>\n</head>".data))

/-- The claim C9 full.render.js document. -/
def c9Fdoc (a u b : List Char) : List Char :=
  "<head>\n".data ++ c9Fv a u b

/-- The input remaining after the first capture group of the full.render.js
regex. -/
def c9Fs3 (u b : List Char) : List Char :=
  "https://".data ++ ((u ++ ("/full.render.js".data ++ ('"' :: b))) ++
    ('>' :: '<' :: "/script>\n</head>".data))

/-- The input at the start of the second capture group of the full.render.js
regex. -/
def c9Fs5 (b : List Char) : List Char :=
  '"' :: (b ++ ('>' :: '<' :: "/script>\n</head>".data))

/-- The text captured by the first group of the full.render.js regex. -/
def c9Fcap1 (a u b : List Char) : List Char :=
  (c9Fv a u b).take ((c9Fv a u b).length - (c9Fs3 u b).length)

/-- The continuation waiting after the `[^>]*` of the full.render.js regex. -/
def c9FK1 (a u b : List Char) : List Char → Option (Nat × List (List Char)) :=
  fun s2 => mrun (seqs [.lit true "src".data, .star jsWs, .lit true "=".data,
    .star jsWs, .lit true "\"".data]) s2
    (fun s3 c3 => mrun (seqs [.lit true "http".data, .opt (.lit true "s".data),
      .lit true "://".data, .star notQuote, .lit true "/full.render.js".data,
      .group (seqs [.lit true "\"".data, .star notGt,
        .lit true "></script>".data])]) s3
      (fun s4 c4 => some ((c9Fv a u b).length - s4.length,
        (c3 ++ [(c9Fv a u b).take ((c9Fv a u b).length - s3.length)]) ++ c4)))

/-- The continuation waiting after the `[^"]*` of the full.render.js regex. -/
def c9FK2 (a u b : List Char) : List Char → Option (Nat × List (List Char)) :=
  fun s2 => mrun (seqs [.lit true "/full.render.js".data,
    .group (seqs [.lit true "\"".data, .star notGt,
      .lit true "></script>".data])]) s2
    (fun s5 c5 => some ((c9Fv a u b).length - s5.length, [c9Fcap1 a u b] ++ c5))

/-- The continuation waiting after the second group's `[^>]*` of the
full.render.js regex. -/
def c9FK3 (a u b : List Char) : List Char → Option (Nat × List (List Char)) :=
  fun s2 => mrun (seqs [.lit true "></script>".data]) s2
    (fun s6 c6 => some ((c9Fv a u b).length - s6.length,
      [c9Fcap1 a u b] ++ (c6 ++ [(c9Fs5 b).take ((c9Fs5 b).length - s6.length)])))

/-- A full.render.js CDN script tag with attribute text `a` before `src`, URL
host/path `u` and attribute text `b` after the URL. -/
def c9FtagFr (a u b : List Char) : List Char :=
  "<script ".data ++ (a ++ ("src=\"https://".data ++
    (u ++ ("/full.render.js".data ++ ('"' :: (b ++ "></script>".data))))))

/-- The full.render.js tag after the redirect: only the URL replaced. -/
def c9FtagFrLocal (a b : List Char) : List Char :=
  "<script ".data ++ (a ++ ("src=\"./vendor/js/full.render.js".data ++
    ('"' :: (b ++ "></script>".data))))

/-- The shape of every link-deletion match: optional-indentation and tag
text `P` with no `>`, the quoted href value `U` with no `"`, attribute
text `S` with no `>`, the single closing `>`, and trailing whitespace
`W`. -/
def linkDelShape (t : List Char) : Prop :=
  ∃ P U S W, t = P ++ ('"' :: (U ++ ('"' :: (S ++ ('>' :: W))))) ∧
    (∀ c ∈ P, c ≠ '>') ∧ (∀ c ∈ U, c ≠ '"') ∧
    (∀ c ∈ S, c ≠ '>') ∧ (∀ c ∈ W, jsWs c = true)

/-- An importmap script block with body `J`. -/
def c5tag (J : List Char) : List Char :=
  "<script type=\"importmap\">".data ++ (J ++ "</script>".data)

/-- The part of the claim C5 document after the head line: indentation,
the block, its line break and the later content `post`. -/
def c5v (J post : List Char) : List Char :=
  "  <script type=\"importmap\">".data ++ (J ++ ("</script>\n".data ++ post))

/-- The claim C5 document. -/
def c5doc (J post : List Char) : List Char :=
  "<head>\n".data ++ c5v J post

/-- The base continuation of the claim C5 match evaluation. -/
def c5K0 (J post : List Char) : List Char → Option (Nat × List (List Char)) :=
  fun s4 => some ((c5v J post).length - s4.length, [])

/-- The continuation waiting after the `[\s\S]*?` of the importmap
regex. -/
def c5K1 (J post : List Char) : List Char → Option (Nat × List (List Char)) :=
  fun s2 => mrunNC (seqs [.lit true "</script>".data, .star jsWs,
    .opt (.lit true "\n".data)]) s2 (c5K0 J post)

/-- The continuation waiting after the trailing `\s*` of the importmap
regex. -/
def c5K2 (J post : List Char) : List Char → Option (Nat × List (List Char)) :=
  fun s2 => mrunNC (seqs [.opt (.lit true "\n".data)]) s2 (c5K0 J post)

-- DEFS-END

theorem orElse_cases {α : Type} {x y : Option α} {out : α}
    (h : (x <|> y) = some out) : x = some out ∨ (x = none ∧ y = some out) := by
  cases x <;> simp_all

theorem litStrip_sound {ci : Bool} : ∀ {p s rest : List Char},
    litStrip ci p s = some rest →
    ∃ t, s = t ++ rest ∧ litStrip ci p t = some [] := by
  intro p
  induction p with
  | nil =>
    intro s rest h
    simp [litStrip] at h
    exact ⟨[], by simp [h], by simp [litStrip]⟩
  | cons a ps ih =>
    intro s rest h
    cases s with
    | nil => simp [litStrip] at h
    | cons c cs =>
      simp only [litStrip] at h
      by_cases hc : chEq ci a c = true
      · rw [if_pos hc] at h
        obtain ⟨t, ht, hm⟩ := ih h
        exact ⟨c :: t, by simp [ht], by simp [litStrip, hc, hm]⟩
      · rw [if_neg hc] at h
        exact absurd h (by simp)

theorem starRun_sound {β : Type} {q : Char → Bool}
    {k : List Char → Option β} : ∀ {s : List Char} {out : β},
    starRun q k s = some out →
    ∃ t s2, s = t ++ s2 ∧ (∀ c ∈ t, q c = true) ∧ k s2 = some out := by
  intro s
  induction s with
  | nil =>
    intro out h
    exact ⟨[], [], rfl, by simp, h⟩
  | cons c cs ih =>
    intro out h
    simp only [starRun] at h
    by_cases hq : q c = true
    · rw [if_pos hq] at h
      rcases orElse_cases h with h1 | ⟨_, h2⟩
      · obtain ⟨t, s2, hs, hall, hk⟩ := ih h1
        refine ⟨c :: t, s2, by simp [hs], ?_, hk⟩
        intro a ha
        rcases List.mem_cons.1 ha with rfl | ha2
        · exact hq
        · exact hall a ha2
      · exact ⟨[], c :: cs, rfl, by simp, h2⟩
    · rw [if_neg hq] at h
      exact ⟨[], c :: cs, rfl, by simp, h⟩

theorem lazyRun_sound {β : Type} {q : Char → Bool}
    {k : List Char → Option β} : ∀ {s : List Char} {out : β},
    lazyRun q k s = some out →
    ∃ t s2, s = t ++ s2 ∧ (∀ c ∈ t, q c = true) ∧ k s2 = some out := by
  intro s
  induction s with
  | nil =>
    intro out h
    exact ⟨[], [], rfl, by simp, h⟩
  | cons c cs ih =>
    intro out h
    simp only [lazyRun] at h
    rcases orElse_cases h with h1 | ⟨_, h2⟩
    · exact ⟨[], c :: cs, rfl, by simp, h1⟩
    · by_cases hq : q c = true
      · rw [if_pos hq] at h2
        obtain ⟨t, s2, hs, hall, hk⟩ := ih h2
        refine ⟨c :: t, s2, by simp [hs], ?_, hk⟩
        intro a ha
        rcases List.mem_cons.1 ha with rfl | ha2
        · exact hq
        · exact hall a ha2
      · rw [if_neg hq] at h2
        exact absurd h2 (by simp)

theorem mrun_sound {β : Type} (r : RE) :
    ∀ (s : List Char) (k : List Char → List (List Char) → Option β) (out : β),
    mrun r s k = some out →
    ∃ t s2 caps, s = t ++ s2 ∧ Matches r t caps ∧ k s2 caps = some out := by
  induction r with
  | eps =>
    intro s k out h
    exact ⟨[], s, [], rfl, .eps, h⟩
  | lit ci p =>
    intro s k out h
    simp only [mrun] at h
    cases hls : litStrip ci p s with
    | none => rw [hls] at h; exact absurd h (by simp)
    | some rest =>
      rw [hls] at h
      obtain ⟨t, ht, hm⟩ := litStrip_sound hls
      exact ⟨t, rest, [], ht, .lit ci p t hm, h⟩
  | cls q =>
    intro s k out h
    cases s with
    | nil => simp [mrun] at h
    | cons c cs =>
      simp only [mrun] at h
      by_cases hq : q c = true
      · rw [if_pos hq] at h
        exact ⟨[c], cs, [], rfl, .cls q c hq, h⟩
      · rw [if_neg hq] at h
        exact absurd h (by simp)
  | opt r ih =>
    intro s k out h
    simp only [mrun] at h
    rcases orElse_cases h with h1 | ⟨_, h2⟩
    · obtain ⟨t, s2, caps, hs, hm, hk⟩ := ih s _ out h1
      exact ⟨t, s2, caps, hs, .optSome r t caps hm, hk⟩
    · exact ⟨[], s, [], rfl, .optNone r, h2⟩
  | star q =>
    intro s k out h
    simp only [mrun] at h
    obtain ⟨t, s2, hs, hall, hk⟩ := starRun_sound h
    exact ⟨t, s2, [], hs, .star q t hall, hk⟩
  | lazystar q =>
    intro s k out h
    simp only [mrun] at h
    obtain ⟨t, s2, hs, hall, hk⟩ := lazyRun_sound h
    exact ⟨t, s2, [], hs, .lazystar q t hall, hk⟩
  | seq r1 r2 ih1 ih2 =>
    intro s k out h
    simp only [mrun] at h
    obtain ⟨t1, s1, c1, hs1, hm1, hk1⟩ := ih1 s _ out h
    obtain ⟨t2, s2, c2, hs2, hm2, hk2⟩ := ih2 s1 _ out hk1
    exact ⟨t1 ++ t2, s2, c1 ++ c2, by simp [hs1, hs2],
      .seq r1 r2 t1 t2 c1 c2 hm1 hm2, hk2⟩
  | group r ih =>
    intro s k out h
    simp only [mrun] at h
    obtain ⟨t, s2, caps, hs, hm, hk⟩ := ih s _ out h
    have hlen : s.length - s2.length = t.length := by
      simp [hs]
    have htake : s.take (s.length - s2.length) = t := by
      rw [hlen, hs, List.take_left]
    rw [htake] at hk
    exact ⟨t, s2, caps ++ [t], hs, .group r t caps hm, hk⟩

/-- Soundness of `matchAt`: a successful match at the head of `s` consumes
a prefix generated by the relational semantics. -/
theorem matchAt_sound {r : RE} {s : List Char} {n : Nat}
    {caps : List (List Char)} (h : matchAt r s = some (n, caps)) :
    ∃ t s2, s = t ++ s2 ∧ n = t.length ∧ Matches r t caps := by
  obtain ⟨t, s2, caps2, hs, hm, hk⟩ := mrun_sound r s _ _ h
  have h2 : s.length - s2.length = t.length := by simp [hs]
  simp only [Option.some.injEq, Prod.mk.injEq] at hk
  obtain ⟨hn, hc⟩ := hk
  subst hc
  exact ⟨t, s2, hs, by rw [← hn, h2], hm⟩

theorem litStrip_app {ci : Bool} : ∀ {p s rest : List Char} (v : List Char),
    litStrip ci p s = some rest → litStrip ci p (s ++ v) = some (rest ++ v) := by
  intro p
  induction p with
  | nil => intro s rest v h; simp [litStrip] at h ⊢; simp [h]
  | cons a ps ih =>
    intro s rest v h
    cases s with
    | nil => simp [litStrip] at h
    | cons c cs =>
      simp only [litStrip] at h ⊢
      by_cases hc : chEq ci a c = true
      · rw [if_pos hc] at h ⊢
        exact ih v h
      · rw [if_neg hc] at h
        exact absurd h (by simp)

theorem litStrip_split {ci : Bool} : ∀ (p1 p2 s : List Char),
    litStrip ci (p1 ++ p2) s =
      match litStrip ci p1 s with
      | some r => litStrip ci p2 r
      | none => none := by
  intro p1
  induction p1 with
  | nil => intro p2 s; simp [litStrip]
  | cons a ps ih =>
    intro p2 s
    cases s with
    | nil => simp [litStrip]
    | cons c cs =>
      simp only [List.cons_append, litStrip]
      by_cases hc : chEq ci a c = true
      · rw [if_pos hc, if_pos hc]
        exact ih p2 cs
      · rw [if_neg hc, if_neg hc]

theorem startsL_app {ci : Bool} {p s : List Char} (v : List Char)
    (h : startsL ci p s = true) : startsL ci p (s ++ v) = true := by
  unfold startsL at h ⊢
  cases hls : litStrip ci p s with
  | none => rw [hls] at h; simp at h
  | some r => rw [litStrip_app v hls]; rfl

theorem occursL_of_startsL {ci : Bool} {p s : List Char}
    (h : startsL ci p s = true) : occursL ci p s = true := by
  cases s with
  | nil => exact h
  | cons c cs => simp [occursL, h]

theorem occursL_app_right {ci : Bool} {p v : List Char} : ∀ (u : List Char),
    occursL ci p v = true → occursL ci p (u ++ v) = true := by
  intro u
  induction u with
  | nil => intro h; exact h
  | cons c cs ih =>
    intro h
    simp only [List.cons_append, occursL, List.append_eq]
    rw [ih h]
    simp

theorem occursL_app_left {ci : Bool} {p : List Char} : ∀ (u v : List Char),
    occursL ci p u = true → occursL ci p (u ++ v) = true := by
  intro u
  induction u with
  | nil =>
    intro v h
    simp only [occursL] at h
    exact occursL_of_startsL (by simpa using startsL_app v h)
  | cons c cs ih =>
    intro v h
    simp only [occursL] at h
    rcases Bool.or_eq_true_iff.1 h with h1 | h2
    · exact occursL_of_startsL (by simpa using startsL_app v h1)
    · simp only [List.cons_append, occursL, List.append_eq]
      rw [ih v h2]
      simp

theorem occursL_drop {ci : Bool} {p s : List Char} {i : Nat}
    (h : occursL ci p (s.drop i) = true) : occursL ci p s = true := by
  have := occursL_app_right (s.take i) h
  rwa [List.take_append_drop] at this

/-- If a pattern of the form `x ++ key ++ y` starts at the head of `s`,
then `key` occurs in `s`. -/
theorem occursL_of_startsL_mid {ci : Bool} {x key y s : List Char}
    (h : startsL ci (x ++ (key ++ y)) s = true) : occursL ci key s = true := by
  unfold startsL at h
  rw [litStrip_split] at h
  cases hx : litStrip ci x s with
  | none => rw [hx] at h; simp at h
  | some r =>
    rw [hx] at h
    have h2 : (litStrip ci (key ++ y) r).isSome = true := h
    rw [litStrip_split] at h2
    cases hk : litStrip ci key r with
    | none => rw [hk] at h2; simp at h2
    | some r2 =>
      obtain ⟨t, ht, _⟩ := litStrip_sound hx
      have hst : startsL ci key r = true := by
        unfold startsL; rw [hk]; rfl
      rw [ht]
      exact occursL_app_right t (occursL_of_startsL hst)

theorem matches_mandLits {r : RE} {t : List Char} {caps : List (List Char)}
    (h : Matches r t caps) :
    ∀ pr ∈ mandLits r, occursL pr.1 pr.2 t = true := by
  induction h with
  | eps => intro pr hpr; simp [mandLits] at hpr
  | lit ci p t hl =>
    intro pr hpr
    simp only [mandLits, List.mem_singleton] at hpr
    subst hpr
    exact occursL_of_startsL (by unfold startsL; rw [hl]; rfl)
  | cls q c hq => intro pr hpr; simp [mandLits] at hpr
  | optSome r t caps hm ih => intro pr hpr; simp [mandLits] at hpr
  | optNone r => intro pr hpr; simp [mandLits] at hpr
  | star q t hall => intro pr hpr; simp [mandLits] at hpr
  | lazystar q t hall => intro pr hpr; simp [mandLits] at hpr
  | seq r1 r2 t1 t2 c1 c2 h1 h2 ih1 ih2 =>
    intro pr hpr
    simp only [mandLits, List.mem_append] at hpr
    rcases hpr with hpr | hpr
    · exact occursL_app_left t1 t2 (ih1 pr hpr)
    · exact occursL_app_right t1 (ih2 pr hpr)
  | group r t caps hm ih => intro pr hpr; exact ih pr hpr

/-- A match starting anywhere in `s` forces every mandatory literal of the
regex to occur in `s`. -/
theorem matchAt_occurs {r : RE} {s : List Char} {n : Nat}
    {caps : List (List Char)} (h : matchAt r s = some (n, caps)) :
    ∀ pr ∈ mandLits r, occursL pr.1 pr.2 s = true := by
  obtain ⟨t, s2, hs, _, hm⟩ := matchAt_sound h
  intro pr hpr
  rw [hs]
  exact occursL_app_left t s2 (matches_mandLits hm pr hpr)

theorem matchAt_none_of_no_occurs {r : RE} {s : List Char}
    {pr : Bool × List Char} (hmem : pr ∈ mandLits r)
    (habs : occursL pr.1 pr.2 s = false) : matchAt r s = none := by
  cases hm : matchAt r s with
  | none => rfl
  | some p =>
    obtain ⟨n, caps⟩ := p
    have := matchAt_occurs hm pr hmem
    rw [habs] at this
    exact absurd this (by simp)

theorem matchAt_nil_zero {r : RE} {n : Nat} {caps : List (List Char)}
    (h : matchAt r [] = some (n, caps)) : n = 0 := by
  obtain ⟨t, s2, hs, hn, _⟩ := matchAt_sound h
  have : t = [] := by
    cases t with
    | nil => rfl
    | cons a b => simp at hs
  simp [this] at hn
  exact hn

theorem goRep_id (r : RE) (tl : List (List Char) → List Char) :
    ∀ (s : List Char) (f : Nat), (∀ i, matchAt r (s.drop i) = none) →
    goRep r tl f s = s := by
  intro s
  induction s with
  | nil =>
    intro f h
    cases f with
    | zero => rfl
    | succ f =>
      have h0 := h 0
      simp only [List.drop_nil] at h0
      simp [goRep, h0]
  | cons c cs ih =>
    intro f h
    cases f with
    | zero => rfl
    | succ f =>
      have h0 := h 0
      simp only [List.drop_zero] at h0
      simp only [goRep, h0]
      rw [ih f fun i => by simpa using h (i + 1)]

/-- A rule whose regex matches nowhere in `s` is the identity on `s`. -/
theorem applyRule_id {r : RE} {tl : List (List Char) → List Char}
    {s : List Char} (h : ∀ i, matchAt r (s.drop i) = none) :
    applyRule r tl s = s :=
  goRep_id r tl s (s.length + 1) h

theorem goRep_fuel (r : RE) (tl : List (List Char) → List Char) :
    ∀ (f g : Nat) (s : List Char), s.length < f → s.length < g →
    goRep r tl f s = goRep r tl g s := by
  intro f
  induction f with
  | zero => intro g s hf; omega
  | succ f ih =>
    intro g s hf hg
    cases g with
    | zero => omega
    | succ g =>
      cases s with
      | nil => simp [goRep]
      | cons c rest =>
        simp only [goRep]
        cases hm : matchAt r (c :: rest) with
        | none =>
          rw [ih g rest (by simp at hf; omega) (by simp at hg; omega)]
        | some p =>
          obtain ⟨n, caps⟩ := p
          by_cases hn : n = 0
          · simp only [if_pos hn]
            rw [ih g rest (by simp at hf; omega) (by simp at hg; omega)]
          · simp only [if_neg hn]
            have hlen : ((c :: rest).drop n).length = rest.length + 1 - n := by
              simp
            rw [ih g ((c :: rest).drop n) (by simp at hf ⊢; omega)
              (by simp at hg ⊢; omega)]

theorem goRep_skip (r : RE) (tl : List (List Char) → List Char) :
    ∀ (u v : List Char) (f : Nat),
    (∀ i, i < u.length → matchAt r (List.drop i (u ++ v)) = none) →
    goRep r tl (u.length + f) (u ++ v) = u ++ goRep r tl f v := by
  intro u
  induction u with
  | nil => intro v f _; simp
  | cons c u2 ih =>
    intro v f h
    have h0 := h 0 (by simp)
    simp only [List.drop_zero, List.cons_append] at h0
    have : (c :: u2).length + f = (u2.length + f) + 1 := by simp; omega
    rw [this]
    simp only [List.cons_append, goRep, List.append_eq, h0]
    rw [ih v f fun i hi => by simpa using h (i + 1) (by simpa using hi)]

theorem goRep_step (r : RE) (tl : List (List Char) → List Char)
    {s : List Char} {n : Nat} {caps : List (List Char)} (f : Nat)
    (hm : matchAt r s = some (n, caps)) (hn : 0 < n) :
    goRep r tl (f + 1) s = tl caps ++ goRep r tl f (s.drop n) := by
  cases s with
  | nil =>
    have := matchAt_nil_zero hm
    omega
  | cons c rest =>
    simp only [goRep, hm]
    rw [if_neg (by omega)]

/-- Splitting a global replace at the leftmost match: if no match starts
inside `u` and `v` starts with a nonempty match, the replace of `u ++ v`
is `u`, then the replacement, then the replace of the rest of `v`. -/
theorem applyRule_split {r : RE} {tl : List (List Char) → List Char}
    {u v : List Char} {n : Nat} {caps : List (List Char)}
    (hskip : ∀ i, i < u.length → matchAt r (List.drop i (u ++ v)) = none)
    (hm : matchAt r v = some (n, caps)) (hn : 0 < n) :
    applyRule r tl (u ++ v) = u ++ tl caps ++ applyRule r tl (v.drop n) := by
  unfold applyRule
  have hlen : (u ++ v).length + 1 = u.length + (v.length + 1) := by
    simp; omega
  rw [hlen, goRep_skip r tl u v (v.length + 1) hskip]
  have hv : v.length + 1 = v.length + 1 := rfl
  rw [goRep_step r tl v.length hm hn]
  have hvne : v ≠ [] := by
    intro he
    subst he
    have := matchAt_nil_zero hm
    omega
  have hvpos : 0 < v.length := List.length_pos.2 hvne
  rw [goRep_fuel r tl v.length ((v.drop n).length + 1) (v.drop n)
    (by simp; omega) (by simp)]
  simp [List.append_assoc]

theorem occursL_mid {ci : Bool} {x key y : List Char} : ∀ (s : List Char),
    occursL ci (x ++ (key ++ y)) s = true → occursL ci key s = true := by
  intro s
  induction s with
  | nil => intro h; exact occursL_of_startsL_mid h
  | cons c cs ih =>
    intro h
    simp only [occursL] at h
    rcases Bool.or_eq_true_iff.1 h with h1 | h2
    · exact occursL_of_startsL_mid h1
    · have := ih h2
      simp [occursL, this]

/-- If a mandatory literal of `r` has the form `x ++ key ++ y` and `key`
does not occur in `doc`, then `r` matches nowhere in `doc`. -/
theorem noMatch_of_key {r : RE} (pr : Bool × List Char)
    (hmem : pr ∈ mandLits r) {key x y : List Char}
    (hpat : pr.2 = x ++ (key ++ y)) {doc : List Char}
    (h : occursL pr.1 key doc = false) :
    ∀ i, matchAt r (doc.drop i) = none := by
  intro i
  apply matchAt_none_of_no_occurs hmem
  cases hocc : occursL pr.1 pr.2 (doc.drop i)
  · rfl
  · exfalso
    rw [hpat] at hocc
    have := occursL_drop (occursL_mid _ hocc)
    rw [h] at this
    exact absurd this (by simp)

theorem tailwindRule_id {doc : List Char}
    (h : occursL true "cdn.tailwindcss.com".data doc = false) :
    tailwindRule doc = doc :=
  applyRule_id (noMatch_of_key (true, "://cdn.tailwindcss.com".data)
    (by simp [tailwindRE, seqs, mandLits])
    (x := "://".data) (y := []) (by simp) h)

theorem themeStep_id (doc : List Char) {e : List Char × List Char}
    (h : occursL true e.1 doc = false) : themeStep doc e = doc :=
  applyRule_id (noMatch_of_key (true, e.1)
    (by simp [themeRE, seqs, mandLits])
    (x := []) (y := []) (by simp) h)

theorem themeRules_id {doc : List Char}
    (h1 : occursL true "github-markdown-dark.min.css".data doc = false)
    (h2 : occursL true "github-markdown.min.css".data doc = false)
    (h3 : occursL true "a11y-dark.min.css".data doc = false)
    (h4 : occursL true "a11y-light.min.css".data doc = false) :
    themeRules doc = doc := by
  show List.foldl themeStep doc themeCssMap = doc
  rw [themeCssMap]
  simp only [List.foldl_cons, List.foldl_nil]
  rw [themeStep_id doc h1, themeStep_id doc h2,
    themeStep_id doc h3, themeStep_id doc h4]

theorem faRule_id {doc : List Char}
    (h : occursL true "font-awesome".data doc = false) : faRule doc = doc :=
  applyRule_id (noMatch_of_key (true, "font-awesome".data)
    (by simp [linkDelRE, seqs, mandLits])
    (x := []) (y := []) (by simp) h)

theorem katexRule_id {doc : List Char}
    (h : occursL true "katex".data doc = false) : katexRule doc = doc :=
  applyRule_id (noMatch_of_key (true, "katex".data)
    (by simp [linkDelRE, seqs, mandLits])
    (x := []) (y := []) (by simp) h)

theorem reactPdfRule_id {doc : List Char}
    (h : occursL true "esm.sh/react-pdf".data doc = false) :
    reactPdfRule doc = doc :=
  applyRule_id (noMatch_of_key (true, "://esm.sh/react-pdf".data)
    (by simp [reactPdfRE, seqs, mandLits])
    (x := "://".data) (y := []) (by simp) h)

theorem vizRule_id {doc : List Char}
    (h : occursL true "viz.js".data doc = false) : vizRule doc = doc :=
  applyRule_id (noMatch_of_key (true, "/viz.js".data)
    (by simp [scriptRedirRE, seqs, mandLits])
    (x := "/".data) (y := []) (by simp) h)

theorem frenderRule_id {doc : List Char}
    (h : occursL true "full.render.js".data doc = false) :
    frenderRule doc = doc :=
  applyRule_id (noMatch_of_key (true, "/full.render.js".data)
    (by simp [scriptRedirRE, seqs, mandLits])
    (x := "/".data) (y := []) (by simp) h)

theorem html2pdfRule_id {doc : List Char}
    (h : occursL true "html2pdf".data doc = false) : html2pdfRule doc = doc :=
  applyRule_id (noMatch_of_key (true, "html2pdf".data)
    (by simp [html2pdfRE, seqs, mandLits])
    (x := []) (y := []) (by simp) h)

theorem importmapRule_id {doc : List Char}
    (h : occursL true "importmap".data doc = false) : importmapRule doc = doc :=
  applyRule_id (noMatch_of_key (true, "\"importmap\"".data)
    (by simp [importmapRE, seqs, mandLits])
    (x := "\"".data) (y := "\"".data) (by simp) h)

theorem commentRules_id {doc : List Char}
    (h1 : occursL false "<!-- React PDF Styles -->".data doc = false)
    (h2 : occursL false "<!-- Graphviz scripts -->".data doc = false)
    (h3 : occursL false "<!-- HTML2PDF -->".data doc = false) :
    commentRules doc = doc := by
  unfold commentRules
  rw [applyRule_id (noMatch_of_key (false, "<!-- React PDF Styles -->".data)
      (by simp [commentRE, seqs, mandLits]) (x := []) (y := []) (by simp) h1),
    applyRule_id (noMatch_of_key (false, "<!-- Graphviz scripts -->".data)
      (by simp [commentRE, seqs, mandLits]) (x := []) (y := []) (by simp) h2),
    applyRule_id (noMatch_of_key (false, "<!-- HTML2PDF -->".data)
      (by simp [commentRE, seqs, mandLits]) (x := []) (y := []) (by simp) h3)]

theorem transformPipeline_id {doc : List Char} (h : markersAbsent doc) :
    transformPipeline doc = doc := by
  obtain ⟨h1, h2, h3, h4, h5, h6, h7, h8, h9, h10, h11, h12, h13, h14, h15⟩ := h
  unfold transformPipeline
  rw [tailwindRule_id h1, themeRules_id h2 h3 h4 h5, faRule_id h6,
    katexRule_id h7, reactPdfRule_id h8, vizRule_id h9, frenderRule_id h10,
    html2pdfRule_id h11, importmapRule_id h12, commentRules_id h13 h14 h15]

theorem orElse_assoc {α : Type} (a b c : Option α) :
    ((a <|> b) <|> c) = (a <|> (b <|> c)) := by
  cases a <;> simp

theorem orElse_none_right {α : Type} (a : Option α) : (a <|> none) = a := by
  cases a <;> simp

/-- Characterization of the greedy star: if every character of `u`
satisfies the class and `v` does not start with a class character, the
star explores exactly the `tryTails` stops. -/
theorem starRun_eval {β : Type} {q : Char → Bool} {k : List Char → Option β} :
    ∀ (u v : List Char), (∀ c ∈ u, q c = true) →
    (∀ c w, v = c :: w → q c = false) →
    starRun q k (u ++ v) = tryTails k u v := by
  intro u
  induction u with
  | nil =>
    intro v _ hv
    cases v with
    | nil => rfl
    | cons c w =>
      simp only [List.nil_append, starRun, tryTails]
      rw [if_neg (by rw [hv c w rfl]; simp)]
  | cons c u ih =>
    intro v hu hv
    simp only [List.cons_append, starRun, tryTails, List.append_eq]
    rw [if_pos (hu c (by simp))]
    rw [ih v (fun d hd => hu d (by simp [hd])) hv]

theorem tryTails_split {β : Type} {k : List Char → Option β} :
    ∀ (u1 u2 v : List Char),
    tryTails k (u1 ++ u2) v = (tryTails k u2 v <|> tryTailsNe k u1 (u2 ++ v)) := by
  intro u1
  induction u1 with
  | nil => intro u2 v; simp [tryTailsNe, orElse_none_right]
  | cons c u1 ih =>
    intro u2 v
    simp only [List.cons_append, tryTails, tryTailsNe, List.append_eq]
    rw [ih u2 v, orElse_assoc]
    simp [List.append_assoc]

theorem tryTailsNe_none {β : Type} {k : List Char → Option β} :
    ∀ (u v : List Char),
    (∀ p2, p2 ≠ [] → p2 <:+ u → k (p2 ++ v) = none) →
    tryTailsNe k u v = none := by
  intro u
  induction u with
  | nil => intro v _; rfl
  | cons c u ih =>
    intro v h
    simp only [tryTailsNe]
    rw [ih v fun p2 hne hsuf => h p2 hne (hsuf.trans (List.suffix_cons c u))]
    rw [h (c :: u) (by simp) List.suffix_rfl]
    rfl

theorem tryTails_none {β : Type} {k : List Char → Option β} :
    ∀ (u v : List Char),
    (∀ p2, p2 <:+ u → k (p2 ++ v) = none) →
    tryTails k u v = none := by
  intro u
  induction u with
  | nil => intro v h; simpa using h [] (by simp)
  | cons c u ih =>
    intro v h
    simp only [tryTails]
    rw [ih v fun p2 hsuf => h p2 (hsuf.trans (List.suffix_cons c u))]
    rw [h (c :: u) List.suffix_rfl]
    rfl

theorem litStrip_exact {ci : Bool} : ∀ {p t : List Char},
    litStrip ci p t = some [] → t.length = p.length := by
  intro p
  induction p with
  | nil =>
    intro t h
    simp [litStrip] at h
    simp [h]
  | cons a ps ih =>
    intro t h
    cases t with
    | nil => simp [litStrip] at h
    | cons c cs =>
      simp only [litStrip] at h
      by_cases hc : chEq ci a c = true
      · rw [if_pos hc] at h
        simp [ih h]
      · rw [if_neg hc] at h
        exact absurd h (by simp)

theorem litStrip_chars {ci : Bool} : ∀ {p t : List Char},
    litStrip ci p t = some [] → ∀ c ∈ t, ∃ d ∈ p, chEq ci d c = true := by
  intro p
  induction p with
  | nil =>
    intro t h
    simp [litStrip] at h
    simp [h]
  | cons a ps ih =>
    intro t h
    cases t with
    | nil => simp [litStrip] at h
    | cons c cs =>
      simp only [litStrip] at h
      by_cases hc : chEq ci a c = true
      · rw [if_pos hc] at h
        intro e he
        rcases List.mem_cons.1 he with rfl | he2
        · exact ⟨a, by simp, hc⟩
        · obtain ⟨d, hd, hde⟩ := ih h e he2
          exact ⟨d, by simp [hd], hde⟩
      · rw [if_neg hc] at h
        exact absurd h (by simp)

theorem litStrip_drop {ci : Bool} : ∀ {p x y : List Char},
    litStrip ci p (x ++ y) = some [] →
    litStrip ci (p.drop x.length) y = some [] := by
  intro p x
  induction x generalizing p with
  | nil => intro y h; simpa using h
  | cons c cs ih =>
    intro y h
    cases p with
    | nil =>
      simp only [List.nil_append] at *
      simp [litStrip] at h
    | cons a ps =>
      simp only [List.cons_append, litStrip] at h
      by_cases hc : chEq ci a c = true
      · rw [if_pos hc] at h
        simpa using ih h
      · rw [if_neg hc] at h
        exact absurd h (by simp)

/-- The ASCII lower-casing function is the identity on every character
outside the lowercase range unless the input was the matching uppercase
letter; in particular, for `d` outside `a`–`z`, `lc c = d` forces `c = d`. -/
theorem lc_eq_of_not_lower {c d : Char} (hd : ('a' ≤ d && d ≤ 'z') = false)
    (h : lc c = d) : c = d := by
  unfold lc at h
  split at h
  all_goals first
    | exact h
    | (subst h; exact absurd hd (by decide))

theorem chEq_true_elim {p c : Char} (h : chEq true p c = true) :
    lc c = lc p := by
  unfold chEq at h
  simpa using h

theorem chEq_quote {c : Char} (h : chEq true c '"' = true) : c = '"' := by
  have h2 : lc '"' = lc c := chEq_true_elim h
  have h3 : lc c = '"' := by rw [← h2]; rfl
  exact lc_eq_of_not_lower (by decide) h3

/-- Claim C1: for every input document string, when the build-target signal (the
`TAURI_PLATFORM` environment variable) is absent, the rewrite pass returns
the input document unchanged, byte for byte. -/
theorem c1_mode_gate_noop (html : String) :
    transformIndexHtml none html = html := rfl

/-- Claim C7: with the mode flag set, for every document in which none of the
recognized markers is present, the output equals the input exactly: every
rule's pattern fails to match, so every replace is the identity (and,
being a total function, the pipeline cannot throw). -/
theorem c7_unmatched_rules_noop (p doc : String) (h : markersAbsent doc.data) :
    transformIndexHtml (some p) doc = doc := by
  show String.mk (transformPipeline doc.data) = doc
  rw [transformPipeline_id h]

/-- Witness for C7 at a concrete marker-free document. -/
theorem c7_unmatched_rules_noop_w :
    markersAbsent ("<html><body>hello</body></html>" : String).data ∧
    transformIndexHtml (some "linux") "<html><body>hello</body></html>" =
      "<html><body>hello</body></html>" :=
  ⟨by unfold markersAbsent; decide,
   c7_unmatched_rules_noop "linux" "<html><body>hello</body></html>"
     (by unfold markersAbsent; decide)⟩

set_option maxRecDepth 40000 in
set_option maxHeartbeats 4000000 in
/-- Counterexample to claim C2: applying the full rewrite pipeline twice
does not always yield the same result as applying it once. -/
theorem c2_counterexample :
    transformPipeline (transformPipeline importmapSpliceDoc) ≠
      transformPipeline importmapSpliceDoc := by
  decide

set_option maxRecDepth 40000 in
set_option maxHeartbeats 16000000 in
/-- Claim C2 (amended): no rule re-matches text produced by a rule's
replacement — on a document exercising every rule (local-path outputs
`./vendor/css/*` and `./vendor/js/*` included) the pipeline applied twice
equals the pipeline applied once; full idempotence on arbitrary documents
fails because a deletion can splice flanking text into a fresh match for
an earlier rule (see the counterexample). -/
theorem c2_idempotent_on_canonical :
    transformPipeline (transformPipeline canonicalDoc) =
      transformPipeline canonicalDoc := by
  decide

set_option maxRecDepth 40000 in
set_option maxHeartbeats 4000000 in
/-- Counterexample to claim C4: the input contains the Tailwind CDN script
tag, yet the output of the rewrite still contains an occurrence of that
tag — deleting the inner copy splices the flanks into a new copy. -/
theorem c4_counterexample :
    occursL false tailwindTag tailwindSpliceDoc = true ∧
    occursL false tailwindTag (transformPipeline tailwindSpliceDoc) = true := by
  constructor
  · decide
  · decide

set_option maxRecDepth 40000 in
set_option maxHeartbeats 4000000 in
/-- Counterexample to claim C5: the input contains an importmap block, yet
the output contains an occurrence of `importmap` (the stray text after
the block). -/
theorem c5_counterexample :
    occursL true "<script type=\"importmap\">".data strayImportmapDoc = true ∧
    occursL true "importmap".data (transformPipeline strayImportmapDoc) = true := by
  constructor
  · decide
  · decide

set_option maxRecDepth 40000 in
set_option maxHeartbeats 8000000 in
/-- Pipeline-level instance of the importmap deletion: on a concrete
five-line block the whole pipeline deletes the block, the later unrelated
script element survives, and the output contains zero occurrences of
`importmap`. -/
theorem c5_importmap_block_deleted :
    transformPipeline importmapBlockDoc =
      "<head>\n<script>app()</script>\n</head>\n".data ∧
    occursL true "importmap".data (transformPipeline importmapBlockDoc) = false := by
  constructor
  · decide
  · decide

set_option maxRecDepth 40000 in
set_option maxHeartbeats 4000000 in
/-- Counterexample to claim C8: on a document whose link tag has an
unterminated href value, the font-awesome deletion match extends past the
`>` (which lies inside the quoted region) and swallows the adjacent
unrelated `<p class="a">` tag: only the trailing `x` survives. -/
theorem c8_counterexample :
    occursL false "<p class=\"a\">".data faSwallowDoc = true ∧
    faRule faSwallowDoc = "x".data := by
  constructor
  · decide
  · decide

theorem mrun_eq_mrunNC {β : Type} (r : RE) (h : groupFree r = true) :
    ∀ (s : List Char) (k : List Char → List (List Char) → Option β),
    mrun r s k = mrunNC r s (fun s2 => k s2 []) := by
  induction r with
  | eps => intro s k; rfl
  | lit ci p =>
    intro s k
    simp only [mrun, mrunNC]
  | cls q => intro s k; cases s <;> rfl
  | opt r ih =>
    intro s k
    simp only [mrun, mrunNC]
    rw [ih h s]
  | star q => intro s k; rfl
  | lazystar q => intro s k; rfl
  | seq r1 r2 ih1 ih2 =>
    intro s k
    simp only [groupFree, Bool.and_eq_true] at h
    simp only [mrun, mrunNC]
    rw [ih1 h.1 s]
    congr 1
    funext s1
    rw [ih2 h.2 s1]
    rfl
  | group r ih => simp [groupFree] at h

theorem matchAt_NC {r : RE} (h : groupFree r = true) (s : List Char) :
    matchAt r s = mrunNC r s (fun s2 => some (s.length - s2.length, [])) := by
  unfold matchAt
  rw [mrun_eq_mrunNC r h s]

theorem chEq_refl (c : Char) : chEq true c c = true := by
  simp [chEq]

theorem litStrip_refl : ∀ (L : List Char), litStrip true L L = some [] := by
  intro L
  induction L with
  | nil => rfl
  | cons c cs ih => simp [litStrip, chEq_refl, ih]

theorem chEq_quote_in {c : Char} (h : chEq true '"' c = true) : c = '"' := by
  have h2 : lc c = lc '"' := chEq_true_elim h
  exact lc_eq_of_not_lower (by decide) h2

/-- A stop that leaves fewer characters than the literal: the literal
match would have to cross the quote, impossible for a quote-free
literal. -/
theorem bindQuote_long_none {β : Type} {L : List Char}
    (hL : ∀ c ∈ L, c ≠ '"') {Kq : List Char → Option β} {u2 w : List Char}
    (hlen : u2.length < L.length) :
    bindQuote L Kq (u2 ++ '"' :: w) = none := by
  unfold bindQuote
  cases hls : litStrip true L (u2 ++ '"' :: w) with
  | none => rfl
  | some s3 =>
    exfalso
    obtain ⟨t, ht, hm⟩ := litStrip_sound hls
    have hlt : t.length = L.length := litStrip_exact hm
    have hq : '"' ∈ t := by
      have hd := congrArg (List.drop u2.length) ht
      rw [List.drop_left] at hd
      rw [List.drop_append_of_le_length (by omega)] at hd
      cases hdt : t.drop u2.length with
      | nil =>
        have := congrArg List.length hdt
        simp at this
        omega
      | cons a t2 =>
        rw [hdt] at hd
        simp only [List.cons_append, List.cons.injEq] at hd
        have ha : a = '"' := hd.1.symm
        subst ha
        exact (List.drop_sublist u2.length t).subset (by rw [hdt]; simp)
    obtain ⟨d, hd, hde⟩ := litStrip_chars hm '"' hq
    exact hL d hd (chEq_quote hde)

/-- A stop that leaves more characters than the literal: after the
literal the next character is still inside the quote-free region, so the
quote literal fails. -/
theorem bindQuote_short_none {β : Type} {L : List Char} {u2 w : List Char}
    {Kq : List Char → Option β} (hu2 : ∀ c ∈ u2, c ≠ '"')
    (hlt : L.length < u2.length) :
    bindQuote L Kq (u2 ++ '"' :: w) = none := by
  unfold bindQuote
  cases hls : litStrip true L (u2 ++ '"' :: w) with
  | none => rfl
  | some s3 =>
    obtain ⟨t, ht, hm⟩ := litStrip_sound hls
    have hlt2 : t.length = L.length := litStrip_exact hm
    have hd := congrArg (List.drop t.length) ht
    rw [List.drop_left] at hd
    rw [List.drop_append_of_le_length (by omega)] at hd
    cases hdu : u2.drop t.length with
    | nil =>
      have := congrArg List.length hdu
      simp at this
      omega
    | cons a u3 =>
      rw [hdu] at hd
      have ha : a ∈ u2 := (List.drop_sublist t.length u2).subset (by rw [hdu]; simp)
      rw [← hd]
      simp only [List.cons_append, Option.some_bind, litStrip]
      rw [if_neg (by intro hc; exact hu2 a ha (chEq_quote_in hc))]
      rfl

/-- The aligned stop: the literal matches exactly up to the quote. -/
theorem bindQuote_eq_some {β : Type} {L u2 w : List Char}
    {Kq : List Char → Option β} (heq : litStrip true L u2 = some []) :
    bindQuote L Kq (u2 ++ '"' :: w) = Kq w := by
  unfold bindQuote
  rw [litStrip_app ('"' :: w) heq]
  simp [litStrip, chEq_refl]

/-- The aligned stop with a failing literal. -/
theorem bindQuote_eq_none {β : Type} {L u2 w : List Char}
    {Kq : List Char → Option β} (hlen : u2.length = L.length)
    (hne : litStrip true L u2 = none) :
    bindQuote L Kq (u2 ++ '"' :: w) = none := by
  unfold bindQuote
  cases hls : litStrip true L (u2 ++ '"' :: w) with
  | none => rfl
  | some s3 =>
    exfalso
    obtain ⟨t, ht, hm⟩ := litStrip_sound hls
    have hlt : t.length = L.length := litStrip_exact hm
    have ht2 : t = u2 := List.append_inj_left ht.symm (by omega)
    rw [ht2] at hm
    rw [hm] at hne
    exact absurd hne (by simp)

theorem suffix_length_lt {u2 L : List Char} (hsuf : u2 <:+ L) (hne : u2 ≠ L) :
    u2.length < L.length := by
  have hle := hsuf.length_le
  rcases Nat.lt_or_ge u2.length L.length with h | h
  · exact h
  · exact absurd (List.IsSuffix.eq_of_length hsuf (by omega)) hne

theorem tryTails_eval_last {β : Type} {K : List Char → Option β} :
    ∀ (u v : List Char),
    (∀ u2, u2 <:+ u → u2 ≠ u → K (u2 ++ v) = none) →
    tryTails K u v = K (u ++ v) := by
  intro u
  induction u with
  | nil => intro v _; rfl
  | cons c u ih =>
    intro v h
    simp only [tryTails]
    rw [tryTails_none u v fun p2 hsuf =>
      h p2 (hsuf.trans (List.suffix_cons c u))
        (by intro he; subst he; have := hsuf.length_le; simp at this)]
    rfl

/-- A suffix is a drop. -/
theorem suffix_eq_drop {u2 L : List Char} (hsuf : u2 <:+ L) :
    u2 = L.drop (L.length - u2.length) := by
  obtain ⟨t, ht⟩ := hsuf
  subst ht
  simp

/-- Success of the quote-bounded star motif: the star stops exactly before
the literal, which is anchored at the closing quote. -/
theorem starQuote_match {β : Type} (L p w : List Char)
    {K : List Char → Option β} {Kq : List Char → Option β}
    (hK : ∀ s2, K s2 = bindQuote L Kq s2)
    (hL : ∀ c ∈ L, c ≠ '"') (hp : ∀ c ∈ p, c ≠ '"')
    (hs : Kq w ≠ none) :
    starRun notQuote K (p ++ (L ++ '"' :: w)) = Kq w := by
  have happ : p ++ (L ++ '"' :: w) = (p ++ L) ++ '"' :: w := by simp
  rw [happ, starRun_eval (p ++ L) ('"' :: w)
    (by intro c hc; rcases List.mem_append.1 hc with h | h
        · simp [notQuote, hp c h]
        · simp [notQuote, hL c h])
    (by intro c w2 he; cases he; rfl)]
  rw [tryTails_split p L ('"' :: w)]
  have hleft : tryTails K L ('"' :: w) = Kq w := by
    rw [tryTails_eval_last L ('"' :: w) fun u2 hsuf hne => by
      rw [hK]
      exact bindQuote_long_none hL (suffix_length_lt hsuf hne)]
    rw [hK]
    exact bindQuote_eq_some (litStrip_refl L)
  rw [hleft]
  cases ho : Kq w with
  | none => exact absurd ho hs
  | some out => rfl

/-- Failure of the quote-bounded star motif: the pattern literal does not
align with the closing quote at any stop, for any quote-free `p`. -/
theorem starQuote_nomatch {β : Type} (L nm p w : List Char)
    {K : List Char → Option β} {Kq : List Char → Option β}
    (hK : ∀ s2, K s2 = bindQuote L Kq s2)
    (hL : ∀ c ∈ L, c ≠ '"') (hnm : ∀ c ∈ nm, c ≠ '"') (hp : ∀ c ∈ p, c ≠ '"')
    (hchk : L.length ≤ nm.length →
      litStrip true L (nm.drop (nm.length - L.length)) = none)
    (hchk2 : nm.length < L.length →
      litStrip true (L.drop (L.length - nm.length)) nm = none) :
    starRun notQuote K (p ++ (nm ++ '"' :: w)) = none := by
  have happ : p ++ (nm ++ '"' :: w) = (p ++ nm) ++ '"' :: w := by simp
  rw [happ, starRun_eval (p ++ nm) ('"' :: w)
    (by intro c hc; rcases List.mem_append.1 hc with h | h
        · simp [notQuote, hp c h]
        · simp [notQuote, hnm c h])
    (by intro c w2 he; cases he; rfl)]
  apply tryTails_none
  intro u2 hsuf
  rw [hK]
  rcases Nat.lt_trichotomy u2.length L.length with hlt | heq | hgt
  · exact bindQuote_long_none hL hlt
  · rcases le_or_lt u2.length nm.length with hle | hgt2
    · -- the aligned stop lies inside nm
      have hu2 : u2 <:+ nm := by
        obtain ⟨t, ht⟩ := hsuf
        have hlen := congrArg List.length ht
        simp at hlen
        refine ⟨t.drop p.length, ?_⟩
        have hdd := congrArg (List.drop p.length) ht
        rw [List.drop_append_of_le_length (by omega), List.drop_left] at hdd
        exact hdd
      apply bindQuote_eq_none heq
      have h2 : u2 = nm.drop (nm.length - u2.length) := suffix_eq_drop hu2
      rw [h2, heq]
      exact hchk (by omega)
    · -- the aligned stop reaches back into p: the tail of the pattern
      -- literal would have to match nm, excluded by hchk2
      obtain ⟨t, ht⟩ := hsuf
      have hlen := congrArg List.length ht
      simp at hlen
      have hu2 : u2 = (p.drop t.length) ++ nm := by
        have hdd := congrArg (List.drop t.length) ht
        rw [List.drop_left, List.drop_append_of_le_length (by omega)] at hdd
        exact hdd
      have hnone : litStrip true L u2 = none := by
        cases hls : litStrip true L u2 with
        | none => rfl
        | some r =>
          exfalso
          have hr : r = [] := by
            obtain ⟨t2, ht2, hm2⟩ := litStrip_sound hls
            have he2 := litStrip_exact hm2
            have hlr := congrArg List.length ht2
            simp at hlr
            cases r with
            | nil => rfl
            | cons a b => simp at hlr; omega
          rw [hr, hu2] at hls
          have hstep := litStrip_drop hls
          have hplen : (p.drop t.length).length = L.length - nm.length := by
            simp
            omega
          rw [hplen] at hstep
          rw [hchk2 (by omega)] at hstep
          exact absurd hstep (by simp)
      exact bindQuote_eq_none heq hnone
  · have hmem : ∀ c ∈ u2, c ≠ '"' := by
      intro c hc
      obtain ⟨t, ht⟩ := hsuf
      have hin : c ∈ p ++ nm := by rw [← ht]; exact List.mem_append_right t hc
      rcases List.mem_append.1 hin with h | h
      · exact hp c h
      · exact hnm c h
    exact bindQuote_short_none hmem hgt

theorem noMatchAll_of_bounded {r : RE} {s : List Char}
    (h : ∀ i, i < s.length + 1 → matchAt r (s.drop i) = none) :
    ∀ i, matchAt r (s.drop i) = none := by
  intro i
  rcases lt_or_ge i (s.length + 1) with hi | hi
  · exact h i hi
  · rw [List.drop_eq_nil_of_le (by omega)]
    have h2 := h s.length (by omega)
    rwa [List.drop_length] at h2

theorem themeRE_groupFree (nm : List Char) : groupFree (themeRE nm) = true := rfl

/-- Pointwise shape of the continuation following the `[^"]*` star of a
theme regex. -/
theorem themeK_shape {β : Type} (nm : List Char) (K0 : List Char → Option β) :
    ∀ s2, mrunNC (seqs [.lit true nm, .lit true ['"']]) s2 K0 =
      bindQuote nm K0 s2 := by
  intro s2
  simp only [seqs, List.foldr, mrunNC, bindQuote]
  cases litStrip true nm s2 with
  | none => rfl
  | some s3 =>
    simp only [Option.some_bind]
    cases litStrip true ['"'] s3 with
    | none => rfl
    | some s4 => rfl

/-- Evaluation of a theme regex at its match position: the star consumes
exactly the URL prefix `p` and the filename anchors at the closing
quote. -/
theorem themeRE_match_eval (nm B p : List Char)
    (hp : ∀ c ∈ p, c ≠ '"') (hnm : ∀ c ∈ nm, c ≠ '"') :
    matchAt (themeRE nm) (hrefHead ++ (p ++ (nm ++ ('"' :: B)))) =
      some ((hrefHead ++ (p ++ (nm ++ ['"']))).length, []) := by
  rw [matchAt_NC (themeRE_groupFree nm)]
  have e1 : mrunNC (themeRE nm) (hrefHead ++ (p ++ (nm ++ ('"' :: B))))
      (fun s2 => some ((hrefHead ++ (p ++ (nm ++ ('"' :: B)))).length - s2.length,
        ([] : List (List Char)))) =
      ((starRun notQuote
        (fun s2 => mrunNC (seqs [.lit true nm, .lit true ['"']]) s2
          (fun s4 => some ((hrefHead ++ (p ++ (nm ++ ('"' :: B)))).length - s4.length,
            ([] : List (List Char)))))
        (p ++ (nm ++ ('"' :: B)))) <|> none) := rfl
  rw [e1]
  rw [starQuote_match nm p B (themeK_shape nm _) hnm hp (by simp)]
  simp
  omega

/-- Evaluation of a theme regex for the wrong filename at an href
position: the pattern literal cannot anchor at the closing quote. -/
theorem themeRE_skip_eval (L nm B p : List Char)
    (hp : ∀ c ∈ p, c ≠ '"') (hnm : ∀ c ∈ nm, c ≠ '"') (hL : ∀ c ∈ L, c ≠ '"')
    (hchk : L.length ≤ nm.length →
      litStrip true L (nm.drop (nm.length - L.length)) = none)
    (hchk2 : nm.length < L.length →
      litStrip true (L.drop (L.length - nm.length)) nm = none) :
    matchAt (themeRE L) (hrefHead ++ (p ++ (nm ++ ('"' :: B)))) = none := by
  rw [matchAt_NC (themeRE_groupFree L)]
  have e1 : mrunNC (themeRE L) (hrefHead ++ (p ++ (nm ++ ('"' :: B))))
      (fun s2 => some ((hrefHead ++ (p ++ (nm ++ ('"' :: B)))).length - s2.length,
        ([] : List (List Char)))) =
      ((starRun notQuote
        (fun s2 => mrunNC (seqs [.lit true L, .lit true ['"']]) s2
          (fun s4 => some ((hrefHead ++ (p ++ (nm ++ ('"' :: B)))).length - s4.length,
            ([] : List (List Char)))))
        (p ++ (nm ++ ('"' :: B)))) <|> none) := rfl
  rw [e1]
  rw [starQuote_nomatch L nm p B (themeK_shape L _) hL hnm hp hchk hchk2]
  rfl

theorem noMatchAll_append {r : RE} {u v : List Char}
    (hu : ∀ i, i < u.length → matchAt r (List.drop i (u ++ v)) = none)
    (hv : ∀ i, matchAt r (v.drop i) = none) :
    ∀ i, matchAt r (List.drop i (u ++ v)) = none := by
  intro i
  rcases lt_or_ge i u.length with hi | hi
  · exact hu i hi
  · have h2 : i = u.length + (i - u.length) := by omega
    rw [h2, List.drop_append]
    exact hv (i - u.length)

/-- One entry of the theme loop rewrites the href URL of its own filename,
keeping the rest of the tag: the star consumes the CDN prefix `p`, the
whole quoted URL is replaced by the local path, and everything after the
closing quote (the remaining attributes `B`) is left as is. -/
theorem themeStep_match (nm loc B p : List Char)
    (hp : ∀ c ∈ p, c ≠ '"') (hnm : ∀ c ∈ nm, c ≠ '"')
    (hB : ∀ i, i < B.length + 1 → matchAt (themeRE nm) (B.drop i) = none) :
    themeStep (linkPre ++ (hrefHead ++ (p ++ (nm ++ ('"' :: B))))) (nm, loc) =
      linkPre ++ (themeRepl loc ++ B) := by
  show applyRule (themeRE nm) (fun _ => themeRepl loc)
    (linkPre ++ (hrefHead ++ (p ++ (nm ++ ('"' :: B))))) = _
  rw [applyRule_split
    (fun i hi => by
      have hi2 : i < 23 := by
        have h23 : linkPre.length = 23 := rfl
        omega
      interval_cases i <;> rfl)
    (themeRE_match_eval nm B p hp hnm)
    (by simp [hrefHead])]
  have hV : hrefHead ++ (p ++ (nm ++ ('"' :: B))) =
      (hrefHead ++ (p ++ (nm ++ ['"']))) ++ B := by simp
  rw [hV, List.drop_left]
  rw [applyRule_id (noMatchAll_of_bounded hB)]
  simp

/-- One entry of the theme loop leaves a tag with a different filename
unchanged, for any quote-free CDN prefix, provided `href` occurs nowhere
after the head of the tag fragment. -/
theorem themeStep_skip (L loc2 nm B p : List Char)
    (hp : ∀ c ∈ p, c ≠ '"') (hnm : ∀ c ∈ nm, c ≠ '"') (hL : ∀ c ∈ L, c ≠ '"')
    (hchk : L.length ≤ nm.length →
      litStrip true L (nm.drop (nm.length - L.length)) = none)
    (hchk2 : nm.length < L.length →
      litStrip true (L.drop (L.length - nm.length)) nm = none)
    (hhref : occursL true "href".data
      ("ref=\"https://".data ++ (p ++ (nm ++ ('"' :: B)))) = false) :
    themeStep (linkPre ++ (hrefHead ++ (p ++ (nm ++ ('"' :: B))))) (L, loc2) =
      linkPre ++ (hrefHead ++ (p ++ (nm ++ ('"' :: B)))) := by
  show applyRule (themeRE L) (fun _ => themeRepl loc2) _ = _
  apply applyRule_id
  apply noMatchAll_append (fun i hi => by
    have hi2 : i < 23 := by
      have h23 : linkPre.length = 23 := rfl
      omega
    interval_cases i <;> rfl)
  intro i
  cases i with
  | zero => exact themeRE_skip_eval L nm B p hp hnm hL hchk hchk2
  | succ j =>
    have h2 : (hrefHead ++ (p ++ (nm ++ ('"' :: B)))).drop (j + 1) =
        ("ref=\"https://".data ++ (p ++ (nm ++ ('"' :: B)))).drop j := rfl
    rw [h2]
    exact noMatch_of_key (true, "href".data)
      (by simp [themeRE, seqs, mandLits]) (x := []) (y := []) (by simp) hhref j

theorem c3_theme_redirect (p : List Char) (hp : ∀ c ∈ p, c ≠ '"')
    (h2 : occursL true "href".data (c3tail "github-markdown.min.css".data p) = false)
    (h3 : occursL true "href".data (c3tail "a11y-dark.min.css".data p) = false)
    (h4 : occursL true "href".data (c3tail "a11y-light.min.css".data p) = false) :
    themeRules (c3doc "github-markdown-dark.min.css".data p) =
      linkPre ++ ("href=\"./vendor/css/github-markdown-dark.min.css\"".data ++ c3B) ∧
    themeRules (c3doc "github-markdown.min.css".data p) =
      linkPre ++ ("href=\"./vendor/css/github-markdown.min.css\"".data ++ c3B) ∧
    themeRules (c3doc "a11y-dark.min.css".data p) =
      linkPre ++ ("href=\"./vendor/css/a11y-dark.min.css\"".data ++ c3B) ∧
    themeRules (c3doc "a11y-light.min.css".data p) =
      linkPre ++ ("href=\"./vendor/css/a11y-light.min.css\"".data ++ c3B) := by
  refine ⟨?_, ?_, ?_, ?_⟩
  · show List.foldl themeStep _ themeCssMap = _
    rw [themeCssMap]
    simp only [List.foldl_cons, List.foldl_nil]
    rw [show c3doc "github-markdown-dark.min.css".data p =
      linkPre ++ (hrefHead ++ (p ++ ("github-markdown-dark.min.css".data ++ ('"' :: c3B)))) from rfl]
    rw [themeStep_match "github-markdown-dark.min.css".data _ c3B p hp (by decide) (by decide)]
    rw [themeStep_id _ (by decide), themeStep_id _ (by decide), themeStep_id _ (by decide)]
    rfl
  · show List.foldl themeStep _ themeCssMap = _
    rw [themeCssMap]
    simp only [List.foldl_cons, List.foldl_nil]
    rw [show c3doc "github-markdown.min.css".data p =
      linkPre ++ (hrefHead ++ (p ++ ("github-markdown.min.css".data ++ ('"' :: c3B)))) from rfl]
    rw [themeStep_skip "github-markdown-dark.min.css".data _
      "github-markdown.min.css".data c3B p hp (by decide) (by decide)
      (by decide) (by decide) h2]
    rw [themeStep_match "github-markdown.min.css".data _ c3B p hp (by decide) (by decide)]
    rw [themeStep_id _ (by decide), themeStep_id _ (by decide)]
    rfl
  · show List.foldl themeStep _ themeCssMap = _
    rw [themeCssMap]
    simp only [List.foldl_cons, List.foldl_nil]
    rw [show c3doc "a11y-dark.min.css".data p =
      linkPre ++ (hrefHead ++ (p ++ ("a11y-dark.min.css".data ++ ('"' :: c3B)))) from rfl]
    rw [themeStep_skip "github-markdown-dark.min.css".data _
      "a11y-dark.min.css".data c3B p hp (by decide) (by decide)
      (by decide) (by decide) h3]
    rw [themeStep_skip "github-markdown.min.css".data _
      "a11y-dark.min.css".data c3B p hp (by decide) (by decide)
      (by decide) (by decide) h3]
    rw [themeStep_match "a11y-dark.min.css".data _ c3B p hp (by decide) (by decide)]
    rw [themeStep_id _ (by decide)]
    rfl
  · show List.foldl themeStep _ themeCssMap = _
    rw [themeCssMap]
    simp only [List.foldl_cons, List.foldl_nil]
    rw [show c3doc "a11y-light.min.css".data p =
      linkPre ++ (hrefHead ++ (p ++ ("a11y-light.min.css".data ++ ('"' :: c3B)))) from rfl]
    rw [themeStep_skip "github-markdown-dark.min.css".data _
      "a11y-light.min.css".data c3B p hp (by decide) (by decide)
      (by decide) (by decide) h4]
    rw [themeStep_skip "github-markdown.min.css".data _
      "a11y-light.min.css".data c3B p hp (by decide) (by decide)
      (by decide) (by decide) h4]
    rw [themeStep_skip "a11y-dark.min.css".data _
      "a11y-light.min.css".data c3B p hp (by decide) (by decide)
      (by decide) (by decide) h4]
    rw [themeStep_match "a11y-light.min.css".data _ c3B p hp (by decide) (by decide)]
    rfl

theorem c3_theme_redirect_w :
    (∀ c ∈ "some.cdn/path/".data, c ≠ '"') ∧
    themeRules (c3doc "a11y-dark.min.css".data "some.cdn/path/".data) =
      linkPre ++ ("href=\"./vendor/css/a11y-dark.min.css\"".data ++ c3B) :=
  ⟨by decide,
   (c3_theme_redirect "some.cdn/path/".data (by decide) (by decide) (by decide)
     (by decide)).2.2.1⟩

theorem c10_dark_filename_safe (p : List Char) (hp : ∀ c ∈ p, c ≠ '"')
    (h1 : occursL true "href".data
      (c3tail "github-markdown-dark.min.css".data p) = false) :
    themeStep (c3doc "github-markdown-dark.min.css".data p)
      ("github-markdown.min.css".data,
       "./vendor/css/github-markdown.min.css".data) =
      c3doc "github-markdown-dark.min.css".data p ∧
    themeRules (c3doc "github-markdown-dark.min.css".data p) =
      linkPre ++ ("href=\"./vendor/css/github-markdown-dark.min.css\"".data ++ c3B) := by
  constructor
  · rw [show c3doc "github-markdown-dark.min.css".data p =
      linkPre ++ (hrefHead ++ (p ++ ("github-markdown-dark.min.css".data ++ ('"' :: c3B)))) from rfl]
    exact themeStep_skip "github-markdown.min.css".data _
      "github-markdown-dark.min.css".data c3B p hp (by decide) (by decide)
      (by decide) (by decide) h1
  · show List.foldl themeStep _ themeCssMap = _
    rw [themeCssMap]
    simp only [List.foldl_cons, List.foldl_nil]
    rw [show c3doc "github-markdown-dark.min.css".data p =
      linkPre ++ (hrefHead ++ (p ++ ("github-markdown-dark.min.css".data ++ ('"' :: c3B)))) from rfl]
    rw [themeStep_match "github-markdown-dark.min.css".data _ c3B p hp (by decide) (by decide)]
    rw [themeStep_id _ (by decide), themeStep_id _ (by decide), themeStep_id _ (by decide)]
    rfl

theorem c10_dark_filename_safe_w :
    (∀ c ∈ "cdn.x/".data, c ≠ '"') ∧
    themeStep (c3doc "github-markdown-dark.min.css".data "cdn.x/".data)
      ("github-markdown.min.css".data,
       "./vendor/css/github-markdown.min.css".data) =
      c3doc "github-markdown-dark.min.css".data "cdn.x/".data :=
  ⟨by decide, (c10_dark_filename_safe "cdn.x/".data (by decide) (by decide)).1⟩

theorem litStrip_head_ne {ci : Bool} {a : Char} {ps : List Char} {c : Char}
    {cs : List Char} (h : chEq ci a c = false) :
    litStrip ci (a :: ps) (c :: cs) = none := by
  simp [litStrip, h]

theorem startsL_confined {ci : Bool} {p x y : List Char}
    (h : startsL ci p (x ++ y) = true) (hlen : p.length ≤ x.length) :
    startsL ci p x = true := by
  unfold startsL at h ⊢
  cases hls : litStrip ci p (x ++ y) with
  | none => rw [hls] at h; simp at h
  | some r =>
    obtain ⟨t, ht, hm⟩ := litStrip_sound hls
    have hlt : t.length = p.length := litStrip_exact hm
    have htx : t = x.take t.length := by
      have h1 := congrArg (List.take t.length) ht
      rw [List.take_left] at h1
      rw [List.take_append_of_le_length (by omega)] at h1
      exact h1.symm
    have hx : t ++ x.drop t.length = x := by
      nth_rewrite 2 [← List.take_append_drop t.length x]
      rw [← htx]
    rw [← hx, litStrip_app (x.drop t.length) hm]
    rfl

theorem suffix_append_right {x y e : List Char} (h : x <:+ y) :
    x ++ e <:+ y ++ e := by
  obtain ⟨t, ht⟩ := h
  exact ⟨t, by rw [← ht]; simp⟩

theorem occursL_of_suffix {ci : Bool} {p x y : List Char} (h : x <:+ y)
    (ho : occursL ci p x = true) : occursL ci p y = true := by
  obtain ⟨t, ht⟩ := h
  rw [← ht]
  exact occursL_app_right t ho

theorem occursL_length {ci : Bool} {p : List Char} : ∀ {s : List Char},
    occursL ci p s = true → p.length ≤ s.length := by
  intro s
  induction s with
  | nil =>
    intro h
    simp only [occursL, startsL] at h
    cases p with
    | nil => simp
    | cons a ps => simp [litStrip] at h
  | cons c cs ih =>
    intro h
    simp only [occursL] at h
    rcases Bool.or_eq_true_iff.1 h with h1 | h2
    · unfold startsL at h1
      cases hls : litStrip ci p (c :: cs) with
      | none => rw [hls] at h1; simp at h1
      | some r =>
        obtain ⟨t, ht, hm⟩ := litStrip_sound hls
        have := litStrip_exact hm
        have h2 := congrArg List.length ht
        simp only [List.length_cons, List.length_append] at h2
        simp only [List.length_cons]
        omega
    · have := ih h2
      simp
      omega

theorem tryTails_first_some {β : Type} {K : List Char → Option β} {out : β} :
    ∀ (u v : List Char), K v = some out → tryTails K u v = some out := by
  intro u
  induction u with
  | nil => intro v h; exact h
  | cons c u ih =>
    intro v h
    simp only [tryTails]
    rw [ih v h]
    rfl

/-- The `<script\s[^>]*src` motif: the greedy `[^>]*` star scans to the
tag-closing `>` and backtracks to the unique stop where `src` matches,
provided no other `src` occurs in the rest of the tag (`hM2`) or in the
attributes before it (`hA`). -/
theorem starGt_srcA {β : Type} (a M2 vrest : List Char) {K : List Char → Option β}
    (M : List Char) (hMh : M = 's' :: 'r' :: M2)
    (hsh : ∀ s2, litStrip true "src".data s2 = none → K s2 = none)
    (ha : ∀ c ∈ a, c ≠ '>') (hM : ∀ c ∈ M, c ≠ '>')
    (hA : occursL true "src".data (a ++ "sr".data) = false)
    (hM2 : occursL true "src".data (M.drop 1 ++ "><".data) = false) :
    starRun notGt K ((a ++ M) ++ ('>' :: '<' :: vrest)) =
      K (M ++ ('>' :: '<' :: vrest)) := by
  rw [starRun_eval (a ++ M) _
    (by intro c hc; rcases List.mem_append.1 hc with h | h
        · simp [notGt, ha c h]
        · simp [notGt, hM c h])
    (by intro c w2 he; cases he; rfl)]
  rw [tryTails_split a M _]
  have hleft : tryTails K M ('>' :: '<' :: vrest) = K (M ++ ('>' :: '<' :: vrest)) := by
    apply tryTails_eval_last
    intro u2 hsuf hne
    apply hsh
    cases hu2 : u2 with
    | nil =>
      show litStrip true "src".data ('>' :: '<' :: vrest) = none
      exact litStrip_head_ne (by decide)
    | cons c0 u2t =>
      cases hls : litStrip true "src".data (u2 ++ ('>' :: '<' :: vrest)) with
      | none => rw [← hu2, hls]
      | some r =>
        exfalso
        have hst : startsL true "src".data ((u2 ++ ['>', '<']) ++ vrest) = true := by
          unfold startsL
          rw [show (u2 ++ ['>', '<']) ++ vrest = u2 ++ ('>' :: '<' :: vrest) by simp]
          rw [hls]
          rfl
        have hst2 := startsL_confined hst (by rw [hu2]; simp)
        have hsufd : u2 <:+ M.drop 1 := by
          have h1 : u2 = M.drop (M.length - u2.length) := suffix_eq_drop hsuf
          have h2 : u2.length < M.length := suffix_length_lt hsuf hne
          rw [h1, show M.length - u2.length = 1 + (M.length - u2.length - 1) by omega]
          rw [← List.drop_drop]
          exact List.drop_suffix _ _
        have := occursL_of_suffix
          (suffix_append_right (e := "><".data) hsufd)
          (occursL_of_startsL hst2)
        rw [hM2] at this
        exact absurd this (by simp)
  rw [hleft]
  have hright : tryTailsNe K a (M ++ ('>' :: '<' :: vrest)) = none := by
    apply tryTailsNe_none
    intro a2 hne hsuf
    apply hsh
    cases hls : litStrip true "src".data (a2 ++ (M ++ ('>' :: '<' :: vrest))) with
    | none => rfl
    | some r =>
      exfalso
      have hst : startsL true "src".data ((a2 ++ "sr".data) ++ (M2 ++ ('>' :: '<' :: vrest))) = true := by
        unfold startsL
        rw [show (a2 ++ "sr".data) ++ (M2 ++ ('>' :: '<' :: vrest)) =
          a2 ++ (M ++ ('>' :: '<' :: vrest)) by rw [hMh]; simp]
        rw [hls]
        rfl
      have hlen : 3 ≤ a2.length + 2 := by
        cases a2 with
        | nil => exact absurd rfl hne
        | cons x xs => simp
      have hst2 := startsL_confined hst (by simpa using hlen)
      have := occursL_of_suffix
        (suffix_append_right (e := "sr".data) hsuf)
        (occursL_of_startsL hst2)
      rw [hA] at this
      exact absurd this (by simp)
  rw [hright]
  exact orElse_none_right _

/-- The `a = []` instance of the motif, in the syntactic shape that arises
when `src` directly follows `<script `. -/
theorem starGt_src0 {β : Type} (M2 vrest : List Char) {K : List Char → Option β}
    (M : List Char) (hMh : M = 's' :: 'r' :: M2)
    (hsh : ∀ s2, litStrip true "src".data s2 = none → K s2 = none)
    (hM : ∀ c ∈ M, c ≠ '>')
    (hM2 : occursL true "src".data (M.drop 1 ++ "><".data) = false) :
    starRun notGt K (M ++ ('>' :: '<' :: vrest)) =
      K (M ++ ('>' :: '<' :: vrest)) := by
  have h := starGt_srcA [] M2 vrest M hMh hsh (by simp) hM (by decide) hM2
  simpa using h

theorem c4_match_eval (u b : List Char)
    (hu1 : ∀ c ∈ u, c ≠ '"') (hu2 : ∀ c ∈ u, c ≠ '>') (hb : ∀ c ∈ b, c ≠ '>')
    (hsrc : occursL true "src".data
      (("rc=\"https://cdn.tailwindcss.com".data ++ (u ++ ('"' :: b))) ++ "><".data) = false) :
    matchAt tailwindRE (c4v u b) =
      some ((c4v u b).length - "</head>".data.length, []) := by
  have hout : starRun notQuote (c4K2 u b)
      (u ++ ('"' :: (b ++ ('>' :: '<' :: "/script>\n</head>".data)))) =
      some ((c4v u b).length - "</head>".data.length, []) := by
    rw [starRun_eval u _
      (by intro c hc; simp [notQuote, hu1 c hc])
      (by intro c w2 he; cases he; rfl)]
    refine tryTails_first_some _ _ ?_
    have inner : starRun notGt (c4K3 u b)
        (b ++ ('>' :: '<' :: "/script>\n</head>".data)) =
        some ((c4v u b).length - "</head>".data.length, []) := by
      rw [starRun_eval b _
        (by intro c hc; simp [notGt, hb c hc])
        (by intro c w2 he; cases he; rfl)]
      exact tryTails_first_some _ _ rfl
    exact inner
  rw [matchAt_NC (by rfl) (c4v u b)]
  have e1 : mrunNC tailwindRE (c4v u b)
      (fun s2 => some ((c4v u b).length - s2.length, ([] : List (List Char)))) =
      (((starRun notGt (c4K1 u b)
        (c4M u b ++ ('>' :: '<' :: "/script>\n</head>".data))) <|> none) <|> none) := rfl
  rw [e1]
  rw [starGt_src0 ("c=\"https://cdn.tailwindcss.com".data ++ (u ++ ('"' :: b)))
    ("/script>\n</head>".data) (c4M u b) rfl
    (fun s2 h => by simp only [c4K1, seqs, List.foldr, mrunNC]; rw [h])
    (by intro c hc
        simp only [c4M] at hc
        rcases List.mem_append.1 hc with h | h
        · exact (by decide :
            ∀ c ∈ "src=\"https://cdn.tailwindcss.com".data, c ≠ '>') c h
        · rcases List.mem_append.1 h with h2 | h2
          · exact hu2 c h2
          · rcases List.mem_cons.1 h2 with rfl | h3
            · decide
            · exact hb c h3)
    hsrc]
  have e7 : c4K1 u b (c4M u b ++ ('>' :: '<' :: "/script>\n</head>".data)) =
      some ((c4v u b).length - "</head>".data.length, []) := by
    have e8 : c4K1 u b (c4M u b ++ ('>' :: '<' :: "/script>\n</head>".data)) =
        ((starRun notQuote (c4K2 u b)
          ((u ++ ('"' :: b)) ++ ('>' :: '<' :: "/script>\n</head>".data))) <|> none) := rfl
    rw [e8, List.append_assoc, List.cons_append, hout]
    rfl
  have e6 : (((c4K1 u b (c4M u b ++ ('>' :: '<' :: "/script>\n</head>".data))) <|> none) <|> none) =
      some ((c4v u b).length - "</head>".data.length, []) := by
    rw [e7]; rfl
  exact e6

theorem c4doc_shape (u b : List Char) :
    c4doc u b = "<head>\n  ".data ++ (c4tag u b ++ "\n</head>".data) := by
  simp only [c4doc, c4v, c4M, c4tag, List.append_assoc, List.cons_append]
  rfl

theorem c4v_split (u b : List Char) :
    c4v u b =
      ("  <script ".data ++ (c4M u b ++ ('>' :: '<' :: "/script>\n".data))) ++
        "</head>".data := by
  simp only [c4v, c4M, List.append_assoc, List.cons_append]
  rfl

theorem c4v_length (u b : List Char) :
    (c4v u b).length = 61 + u.length + b.length := by
  have h10 : ("  <script ".data).length = 10 := rfl
  have h32 : ("src=\"https://cdn.tailwindcss.com".data).length = 32 := rfl
  have h16 : ("/script>\n</head>".data).length = 16 := rfl
  simp only [c4v, c4M, List.length_append, List.length_cons, h10, h32, h16]
  omega

theorem c4_drop (u b : List Char) :
    (c4v u b).drop ((c4v u b).length - ("</head>".data).length) =
      "</head>".data := by
  rw [c4v_split u b]
  rw [List.length_append]
  have h : ("  <script ".data ++ (c4M u b ++ ('>' :: '<' :: "/script>\n".data))).length +
      ("</head>".data).length - ("</head>".data).length =
      ("  <script ".data ++ (c4M u b ++ ('>' :: '<' :: "/script>\n".data))).length := by
    omega
  rw [h, List.drop_left]

set_option maxRecDepth 4000 in
theorem c4_tail_id :
    applyRule tailwindRE (fun _ => []) "</head>".data = "</head>".data := by
  decide

/-- C4: with the mode flag set, a document holding a Tailwind CDN script
tag — with any URL remainder `u` that is quote-free and `>`-free, and any
extra attribute text `b` that is `>`-free, neither reassembling the letters
`src` after the initial occurrence — has that tag removed together with its
leading indentation and trailing line break, and the rewritten output
contains no occurrence of the tag. -/
theorem c4_tailwind_removed (u b : List Char)
    (hu1 : ∀ c ∈ u, c ≠ '"') (hu2 : ∀ c ∈ u, c ≠ '>') (hb : ∀ c ∈ b, c ≠ '>')
    (hsrc : occursL true "src".data
      (("rc=\"https://cdn.tailwindcss.com".data ++ (u ++ ('"' :: b))) ++ "><".data) = false) :
    c4doc u b = "<head>\n  ".data ++ (c4tag u b ++ "\n</head>".data) ∧
    tailwindRule (c4doc u b) = "<head>\n</head>".data ∧
    occursL false (c4tag u b) (tailwindRule (c4doc u b)) = false := by
  have hm := c4_match_eval u b hu1 hu2 hb hsrc
  have hskip : ∀ i, i < ("<head>\n".data).length →
      matchAt tailwindRE (List.drop i ("<head>\n".data ++ c4v u b)) = none := by
    intro i hi
    have h7 : ("<head>\n".data).length = 7 := rfl
    rw [h7] at hi
    interval_cases i <;> rfl
  have hn : 0 < (c4v u b).length - ("</head>".data).length := by
    have hv := c4v_length u b
    have h7 : ("</head>".data).length = 7 := rfl
    omega
  have hmain : tailwindRule (c4doc u b) = "<head>\n</head>".data := by
    show applyRule tailwindRE (fun _ => []) ("<head>\n".data ++ c4v u b) =
      "<head>\n</head>".data
    rw [applyRule_split hskip hm hn]
    rw [c4_drop u b, c4_tail_id]
    rfl
  refine ⟨c4doc_shape u b, hmain, ?_⟩
  rw [hmain]
  cases hoc : occursL false (c4tag u b) "<head>\n</head>".data with
  | false => rfl
  | true =>
    have hle := occursL_length hoc
    have h14 : ("<head>\n</head>".data).length = 14 := rfl
    have h40 : ("<script src=\"https://cdn.tailwindcss.com".data).length = 40 := rfl
    have h10 : ("></script>".data).length = 10 := rfl
    have hlent : (c4tag u b).length = 51 + u.length + b.length := by
      simp only [c4tag, List.length_append, List.length_cons, h40, h10]
      omega
    exact absurd hle (by omega)

/-- Witness for C4 at the empty URL remainder and no extra attributes. -/
theorem c4_tailwind_removed_w :
    c4doc [] [] = "<head>\n  ".data ++ (c4tag [] [] ++ "\n</head>".data) ∧
    tailwindRule (c4doc [] []) = "<head>\n</head>".data ∧
    occursL false (c4tag [] []) (tailwindRule (c4doc [] [])) = false :=
  c4_tailwind_removed [] [] (by decide) (by decide) (by decide) (by decide)

theorem litStrip_nochar_le {c : Char} : ∀ {p : List Char},
    (∀ x ∈ p, chEq true x c = false) →
    ∀ {x w r : List Char},
    litStrip true p (x ++ (c :: w)) = some r → p.length ≤ x.length := by
  intro p
  induction p with
  | nil => intro _ x w r _; simp
  | cons a ps ih =>
    intro hpc x w r h
    cases x with
    | nil =>
      exfalso
      have hac : chEq true a c = false := hpc a (by simp)
      simp [litStrip, hac] at h
    | cons b xs =>
      simp only [List.cons_append, litStrip] at h
      cases hcb : chEq true a b with
      | false => rw [hcb] at h; simp at h
      | true =>
        rw [hcb] at h
        simp only [if_pos] at h
        have := ih (fun x hx => hpc x (by simp [hx])) h
        simp only [List.length_cons]
        omega

/-- A greedy class star bounded by the class-breaking character `c` stops
exactly where the mandatory literal `p` begins, provided `p` cannot cross
the boundary (`hpc`), does not occur later inside `M` (`hM2`) and cannot
start inside the preceding span `a` (`hA`). -/
theorem starStop_unique {β : Type} {q : Char → Bool} (p a M2 : List Char)
    (c : Char) (w : List Char) {K : List Char → Option β}
    (M : List Char) (hMh : M = p.take (p.length - 1) ++ M2)
    (hp1 : p ≠ [])
    (hqc : q c = false)
    (hpc : ∀ x ∈ p, chEq true x c = false)
    (hsh : ∀ s2, litStrip true p s2 = none → K s2 = none)
    (ha : ∀ x ∈ a, q x = true) (hM : ∀ x ∈ M, q x = true)
    (hA : occursL true p (a ++ p.take (p.length - 1)) = false)
    (hM2 : occursL true p (M.drop 1) = false) :
    starRun q K ((a ++ M) ++ (c :: w)) = K (M ++ (c :: w)) := by
  rw [starRun_eval (a ++ M) _
    (by intro x hx; rcases List.mem_append.1 hx with h | h
        · exact ha x h
        · exact hM x h)
    (by intro c0 w2 he; cases he; exact hqc)]
  rw [tryTails_split a M _]
  have hleft : tryTails K M (c :: w) = K (M ++ (c :: w)) := by
    apply tryTails_eval_last
    intro u2 hsuf hne
    apply hsh
    cases hls : litStrip true p (u2 ++ (c :: w)) with
    | none => rfl
    | some r =>
      exfalso
      have hlen := litStrip_nochar_le hpc hls
      have hstfull : startsL true p (u2 ++ (c :: w)) = true := by
        unfold startsL
        rw [hls]
        rfl
      have hst := startsL_confined hstfull hlen
      have hsufd : u2 <:+ M.drop 1 := by
        have h1 : u2 = M.drop (M.length - u2.length) := suffix_eq_drop hsuf
        have h2 : u2.length < M.length := suffix_length_lt hsuf hne
        rw [h1, show M.length - u2.length = 1 + (M.length - u2.length - 1) by omega]
        rw [← List.drop_drop]
        exact List.drop_suffix _ _
      have := occursL_of_suffix hsufd (occursL_of_startsL hst)
      rw [hM2] at this
      exact absurd this (by simp)
  rw [hleft]
  have hright : tryTailsNe K a (M ++ (c :: w)) = none := by
    apply tryTailsNe_none
    intro a2 hne hsuf
    apply hsh
    cases hls : litStrip true p (a2 ++ (M ++ (c :: w))) with
    | none => rfl
    | some r =>
      exfalso
      have hshape : a2 ++ (M ++ (c :: w)) =
          (a2 ++ p.take (p.length - 1)) ++ (M2 ++ (c :: w)) := by
        rw [hMh]
        simp
      have hstfull : startsL true p
          ((a2 ++ p.take (p.length - 1)) ++ (M2 ++ (c :: w))) = true := by
        unfold startsL
        rw [← hshape, hls]
        rfl
      have h1 : 1 ≤ a2.length := by
        cases a2 with
        | nil => exact absurd rfl hne
        | cons x xs => simp
      have h3 : 1 ≤ p.length := by
        cases p with
        | nil => exact absurd rfl hp1
        | cons x xs => simp
      have h2 : (p.take (p.length - 1)).length = p.length - 1 := by
        simp only [List.length_take]
        omega
      have hlen : p.length ≤ (a2 ++ p.take (p.length - 1)).length := by
        simp only [List.length_append, h2]
        omega
      have hst := startsL_confined hstfull hlen
      have := occursL_of_suffix
        (suffix_append_right (e := p.take (p.length - 1)) hsuf)
        (occursL_of_startsL hst)
      rw [hA] at this
      exact absurd this (by simp)
  rw [hright]
  exact orElse_none_right _

theorem c6_match_eval (u1 u2 b : List Char)
    (hu1q : ∀ c ∈ u1, c ≠ '"') (hu1g : ∀ c ∈ u1, c ≠ '>')
    (hu2q : ∀ c ∈ u2, c ≠ '"') (hu2g : ∀ c ∈ u2, c ≠ '>')
    (hbg : ∀ c ∈ b, c ≠ '>')
    (hsrc : occursL true "src".data
      (("rc=\"https://".data ++
        (u1 ++ ("html2pdf".data ++ (u2 ++ ('"' :: b))))) ++ "><".data) = false)
    (hA : occursL true "html2pdf".data (u1 ++ "html2pd".data) = false)
    (hM2 : occursL true "html2pdf".data ("tml2pdf".data ++ u2) = false) :
    matchAt html2pdfRE (c6v u1 u2 b) =
      some ((c6v u1 u2 b).length - "</head>".data.length, []) := by
  have hout4 : starRun notGt (c6K4 u1 u2 b)
      (b ++ ('>' :: '<' :: "/script>\n</head>".data)) =
      some ((c6v u1 u2 b).length - "</head>".data.length, []) := by
    rw [starRun_eval b _
      (by intro c hc; simp [notGt, hbg c hc])
      (by intro c w2 he; cases he; rfl)]
    exact tryTails_first_some _ _ rfl
  have hout3 : starRun notQuote (c6K3 u1 u2 b)
      (u2 ++ ('"' :: (b ++ ('>' :: '<' :: "/script>\n</head>".data)))) =
      some ((c6v u1 u2 b).length - "</head>".data.length, []) := by
    rw [starRun_eval u2 _
      (by intro c hc; simp [notQuote, hu2q c hc])
      (by intro c w2 he; cases he; rfl)]
    refine tryTails_first_some _ _ ?_
    exact hout4
  have hstop : starRun notQuote (c6K2 u1 u2 b)
      ((u1 ++ ("html2pdf".data ++ u2)) ++
        ('"' :: (b ++ ('>' :: '<' :: "/script>\n</head>".data)))) =
      c6K2 u1 u2 b (("html2pdf".data ++ u2) ++
        ('"' :: (b ++ ('>' :: '<' :: "/script>\n</head>".data)))) := by
    apply starStop_unique "html2pdf".data u1 ('f' :: u2) '"'
      (b ++ ('>' :: '<' :: "/script>\n</head>".data))
      ("html2pdf".data ++ u2) rfl (by decide) (by decide) (by decide)
      (fun s2 h => by simp only [c6K2, seqs, List.foldr, mrunNC]; rw [h])
      (by intro x hx; simp [notQuote, hu1q x hx])
      (by intro x hx
          rcases List.mem_append.1 hx with h | h
          · exact (by decide : ∀ x ∈ "html2pdf".data, notQuote x = true) x h
          · simp [notQuote, hu2q x h])
      hA hM2
  rw [matchAt_NC (by rfl) (c6v u1 u2 b)]
  have e1 : mrunNC html2pdfRE (c6v u1 u2 b)
      (fun s2 => some ((c6v u1 u2 b).length - s2.length, ([] : List (List Char)))) =
      (((starRun notGt (c6K1 u1 u2 b)
        (c6M u1 u2 b ++ ('>' :: '<' :: "/script>\n</head>".data))) <|> none) <|> none) := rfl
  rw [e1]
  rw [starGt_src0
    ("c=\"https://".data ++ (u1 ++ ("html2pdf".data ++ (u2 ++ ('"' :: b)))))
    ("/script>\n</head>".data) (c6M u1 u2 b) rfl
    (fun s2 h => by simp only [c6K1, seqs, List.foldr, mrunNC]; rw [h])
    (by intro c hc
        simp only [c6M] at hc
        rcases List.mem_append.1 hc with h | h
        · exact (by decide : ∀ c ∈ "src=\"https://".data, c ≠ '>') c h
        · rcases List.mem_append.1 h with h2 | h2
          · exact hu1g c h2
          · rcases List.mem_append.1 h2 with h3 | h3
            · exact (by decide : ∀ c ∈ "html2pdf".data, c ≠ '>') c h3
            · rcases List.mem_append.1 h3 with h4 | h4
              · exact hu2g c h4
              · rcases List.mem_cons.1 h4 with rfl | h5
                · decide
                · exact hbg c h5)
    hsrc]
  have hassoc : (u1 ++ ("html2pdf".data ++ (u2 ++ ('"' :: b)))) ++
      ('>' :: '<' :: "/script>\n</head>".data) =
      (u1 ++ ("html2pdf".data ++ u2)) ++
        ('"' :: (b ++ ('>' :: '<' :: "/script>\n</head>".data))) := by
    simp [List.append_assoc]
  have e7 : c6K1 u1 u2 b
      (c6M u1 u2 b ++ ('>' :: '<' :: "/script>\n</head>".data)) =
      some ((c6v u1 u2 b).length - "</head>".data.length, []) := by
    have e8 : c6K1 u1 u2 b
        (c6M u1 u2 b ++ ('>' :: '<' :: "/script>\n</head>".data)) =
        ((starRun notQuote (c6K2 u1 u2 b)
          ((u1 ++ ("html2pdf".data ++ (u2 ++ ('"' :: b)))) ++
            ('>' :: '<' :: "/script>\n</head>".data))) <|> none) := rfl
    rw [e8, hassoc, hstop]
    have e9 : c6K2 u1 u2 b (("html2pdf".data ++ u2) ++
        ('"' :: (b ++ ('>' :: '<' :: "/script>\n</head>".data)))) =
        starRun notQuote (c6K3 u1 u2 b)
          (u2 ++ ('"' :: (b ++ ('>' :: '<' :: "/script>\n</head>".data)))) := rfl
    rw [e9, hout3]
    rfl
  have e6 : (((c6K1 u1 u2 b
      (c6M u1 u2 b ++ ('>' :: '<' :: "/script>\n</head>".data))) <|> none) <|> none) =
      some ((c6v u1 u2 b).length - "</head>".data.length, []) := by
    rw [e7]
    rfl
  exact e6

theorem c6doc_shape (u1 u2 b : List Char) :
    c6doc u1 u2 b = "<head>\n  ".data ++ (c6tag u1 u2 b ++ "\n</head>".data) := by
  simp only [c6doc, c6v, c6M, c6tag, List.append_assoc, List.cons_append]
  rfl

theorem c6v_split (u1 u2 b : List Char) :
    c6v u1 u2 b =
      ("  <script ".data ++ (c6M u1 u2 b ++ ('>' :: '<' :: "/script>\n".data))) ++
        "</head>".data := by
  simp only [c6v, c6M, List.append_assoc, List.cons_append]
  rfl

theorem c6v_length (u1 u2 b : List Char) :
    (c6v u1 u2 b).length = 50 + u1.length + u2.length + b.length := by
  have h10 : ("  <script ".data).length = 10 := rfl
  have h13 : ("src=\"https://".data).length = 13 := rfl
  have h8 : ("html2pdf".data).length = 8 := rfl
  have h16 : ("/script>\n</head>".data).length = 16 := rfl
  simp only [c6v, c6M, List.length_append, List.length_cons, h10, h13, h8, h16]
  omega

theorem c6_drop (u1 u2 b : List Char) :
    (c6v u1 u2 b).drop ((c6v u1 u2 b).length - ("</head>".data).length) =
      "</head>".data := by
  rw [c6v_split u1 u2 b]
  rw [List.length_append]
  have h : ("  <script ".data ++ (c6M u1 u2 b ++ ('>' :: '<' :: "/script>\n".data))).length +
      ("</head>".data).length - ("</head>".data).length =
      ("  <script ".data ++ (c6M u1 u2 b ++ ('>' :: '<' :: "/script>\n".data))).length := by
    omega
  rw [h, List.drop_left]

set_option maxRecDepth 4000 in
theorem c6_tail_id :
    applyRule html2pdfRE (fun _ => html2pdfRepl) "</head>".data = "</head>".data := by
  decide

/-- C6: with the mode flag set, a document holding a script tag whose
`src` URL contains the `html2pdf` marker — with any URL pieces `u1`, `u2`
around the marker (quote-free and `>`-free) and any extra attribute text
`b` (`>`-free), the marker and the letters `src` occurring nowhere else —
has the whole tag replaced by exactly the fixed local script tag
`<script src="./vendor/js/html2pdf.bundle.min.js"></script>` at the same
position, regardless of the original attributes. -/
theorem c6_html2pdf_replaced (u1 u2 b : List Char)
    (hu1q : ∀ c ∈ u1, c ≠ '"') (hu1g : ∀ c ∈ u1, c ≠ '>')
    (hu2q : ∀ c ∈ u2, c ≠ '"') (hu2g : ∀ c ∈ u2, c ≠ '>')
    (hbg : ∀ c ∈ b, c ≠ '>')
    (hsrc : occursL true "src".data
      (("rc=\"https://".data ++
        (u1 ++ ("html2pdf".data ++ (u2 ++ ('"' :: b))))) ++ "><".data) = false)
    (hA : occursL true "html2pdf".data (u1 ++ "html2pd".data) = false)
    (hM2 : occursL true "html2pdf".data ("tml2pdf".data ++ u2) = false) :
    c6doc u1 u2 b = "<head>\n  ".data ++ (c6tag u1 u2 b ++ "\n</head>".data) ∧
    html2pdfRule (c6doc u1 u2 b) =
      "<head>\n  <script src=\"./vendor/js/html2pdf.bundle.min.js\"></script>\n</head>".data := by
  have hm := c6_match_eval u1 u2 b hu1q hu1g hu2q hu2g hbg hsrc hA hM2
  have hskip : ∀ i, i < ("<head>\n".data).length →
      matchAt html2pdfRE (List.drop i ("<head>\n".data ++ c6v u1 u2 b)) = none := by
    intro i hi
    have h7 : ("<head>\n".data).length = 7 := rfl
    rw [h7] at hi
    interval_cases i <;> rfl
  have hn : 0 < (c6v u1 u2 b).length - ("</head>".data).length := by
    have hv := c6v_length u1 u2 b
    have h7 : ("</head>".data).length = 7 := rfl
    omega
  refine ⟨c6doc_shape u1 u2 b, ?_⟩
  show applyRule html2pdfRE (fun _ => html2pdfRepl) ("<head>\n".data ++ c6v u1 u2 b) =
    "<head>\n  <script src=\"./vendor/js/html2pdf.bundle.min.js\"></script>\n</head>".data
  rw [applyRule_split hskip hm hn]
  rw [c6_drop u1 u2 b, c6_tail_id]
  rfl

/-- Witness for C6 at empty URL pieces and no extra attributes. -/
theorem c6_html2pdf_replaced_w :
    c6doc [] [] [] = "<head>\n  ".data ++ (c6tag [] [] [] ++ "\n</head>".data) ∧
    html2pdfRule (c6doc [] [] []) =
      "<head>\n  <script src=\"./vendor/js/html2pdf.bundle.min.js\"></script>\n</head>".data :=
  c6_html2pdf_replaced [] [] [] (by decide) (by decide) (by decide) (by decide)
    (by decide) (by decide) (by decide) (by decide)

theorem c9_match_viz (a u b : List Char)
    (hag : ∀ c ∈ a, c ≠ '>') (huq : ∀ c ∈ u, c ≠ '"') (hug : ∀ c ∈ u, c ≠ '>')
    (hbg : ∀ c ∈ b, c ≠ '>')
    (hsrcA : occursL true "src".data (a ++ "sr".data) = false)
    (hsrcM : occursL true "src".data
      (("rc=\"https://".data ++ (u ++ ("/viz.js".data ++ ('"' :: b)))) ++ "><".data) = false)
    (hAviz : occursL true "/viz.js".data (u ++ "/viz.j".data) = false) :
    matchAt (scriptRedirRE "/viz.js".data) (c9v a u b) =
      some ((c9v a u b).length - ("\n</head>".data).length,
        [c9cap1 a u b,
         (c9s5 b).take ((c9s5 b).length - ("\n</head>".data).length)]) := by
  have e1 : matchAt (scriptRedirRE "/viz.js".data) (c9v a u b) =
      starRun notGt (c9K1 a u b)
        ((a ++ c9M u b) ++ ('>' :: '<' :: "/script>\n</head>".data)) := rfl
  rw [e1]
  rw [starGt_srcA a
    ("c=\"https://".data ++ (u ++ ("/viz.js".data ++ ('"' :: b))))
    ("/script>\n</head>".data) (c9M u b) rfl
    (fun s2 h => by simp only [c9K1, seqs, List.foldr, mrun]; rw [h])
    hag
    (by intro c hc
        simp only [c9M] at hc
        rcases List.mem_append.1 hc with h | h
        · exact (by decide : ∀ c ∈ "src=\"https://".data, c ≠ '>') c h
        · rcases List.mem_append.1 h with h2 | h2
          · exact hug c h2
          · rcases List.mem_append.1 h2 with h3 | h3
            · exact (by decide : ∀ c ∈ "/viz.js".data, c ≠ '>') c h3
            · rcases List.mem_cons.1 h3 with rfl | h4
              · decide
              · exact hbg c h4)
    hsrcA hsrcM]
  have e2 : c9K1 a u b (c9M u b ++ ('>' :: '<' :: "/script>\n</head>".data)) =
      ((starRun notQuote (c9K2 a u b)
        ((u ++ ("/viz.js".data ++ ('"' :: b))) ++
          ('>' :: '<' :: "/script>\n</head>".data))) <|> none) := rfl
  rw [e2]
  have hassoc : (u ++ ("/viz.js".data ++ ('"' :: b))) ++
      ('>' :: '<' :: "/script>\n</head>".data) =
      (u ++ "/viz.js".data) ++
        ('"' :: (b ++ ('>' :: '<' :: "/script>\n</head>".data))) := by
    simp [List.append_assoc]
  rw [hassoc]
  rw [starStop_unique "/viz.js".data u ['s'] '"'
    (b ++ ('>' :: '<' :: "/script>\n</head>".data))
    ("/viz.js".data) rfl (by decide) (by decide) (by decide)
    (fun s2 h => by simp only [c9K2, seqs, List.foldr, mrun]; rw [h])
    (by intro x hx; simp [notQuote, huq x hx])
    (by decide)
    hAviz (by decide)]
  have e3 : c9K2 a u b
      ("/viz.js".data ++ ('"' :: (b ++ ('>' :: '<' :: "/script>\n</head>".data)))) =
      starRun notGt (c9K3 a u b)
        (b ++ ('>' :: '<' :: "/script>\n</head>".data)) := rfl
  rw [e3]
  have hout : starRun notGt (c9K3 a u b)
      (b ++ ('>' :: '<' :: "/script>\n</head>".data)) =
      some ((c9v a u b).length - ("\n</head>".data).length,
        [c9cap1 a u b,
         (c9s5 b).take ((c9s5 b).length - ("\n</head>".data).length)]) := by
    rw [starRun_eval b _
      (by intro c hc; simp [notGt, hbg c hc])
      (by intro c w2 he; cases he; rfl)]
    exact tryTails_first_some _ _ rfl
  rw [hout]
  rfl

theorem redirTmpl_pair (lp c1 c2 : List Char) :
    redirTmpl lp [c1, c2] = c1 ++ (lp ++ c2) := by
  simp [redirTmpl]

theorem c9v_split1 (a u b : List Char) :
    c9v a u b = ("<script ".data ++ (a ++ "src=\"".data)) ++ c9s3 u b := by
  simp only [c9v, c9M, c9s3, List.append_assoc, List.cons_append]
  rfl

theorem c9cap1_eq (a u b : List Char) :
    c9cap1 a u b = "<script ".data ++ (a ++ "src=\"".data) := by
  unfold c9cap1
  rw [c9v_split1 a u b]
  rw [List.length_append]
  have h : ("<script ".data ++ (a ++ "src=\"".data)).length + (c9s3 u b).length -
      (c9s3 u b).length = ("<script ".data ++ (a ++ "src=\"".data)).length := by
    omega
  rw [h, List.take_left]

theorem c9s5_split (b : List Char) :
    c9s5 b = ('"' :: (b ++ "></script>".data)) ++ "\n</head>".data := by
  simp only [c9s5, List.cons_append, List.append_assoc]
  rfl

theorem c9cap2_eq (b : List Char) :
    (c9s5 b).take ((c9s5 b).length - ("\n</head>".data).length) =
      '"' :: (b ++ "></script>".data) := by
  rw [c9s5_split b, List.length_append]
  have h : ('"' :: (b ++ "></script>".data)).length + ("\n</head>".data).length -
      ("\n</head>".data).length = ('"' :: (b ++ "></script>".data)).length := by
    omega
  rw [h, List.take_left]

theorem c9v_split2 (a u b : List Char) :
    c9v a u b = ("<script ".data ++ ((a ++ c9M u b) ++ ('>' :: '<' :: "/script>".data))) ++
      "\n</head>".data := by
  simp only [c9v, List.append_assoc, List.cons_append]
  rfl

theorem c9_dropv (a u b : List Char) :
    (c9v a u b).drop ((c9v a u b).length - ("\n</head>".data).length) =
      "\n</head>".data := by
  rw [c9v_split2 a u b, List.length_append]
  have h : ("<script ".data ++ ((a ++ c9M u b) ++ ('>' :: '<' :: "/script>".data))).length +
      ("\n</head>".data).length - ("\n</head>".data).length =
      ("<script ".data ++ ((a ++ c9M u b) ++ ('>' :: '<' :: "/script>".data))).length := by
    omega
  rw [h, List.drop_left]

theorem c9v_length (a u b : List Char) :
    (c9v a u b).length = 47 + a.length + u.length + b.length := by
  have h8 : ("<script ".data).length = 8 := rfl
  have h13 : ("src=\"https://".data).length = 13 := rfl
  have h7 : ("/viz.js".data).length = 7 := rfl
  have h16 : ("/script>\n</head>".data).length = 16 := rfl
  simp only [c9v, c9M, List.length_append, List.length_cons, h8, h13, h7, h16]
  omega

set_option maxRecDepth 4000 in
theorem c9_tail_id :
    applyRule (scriptRedirRE "/viz.js".data) (redirTmpl "./vendor/js/viz.js".data)
      "\n</head>".data = "\n</head>".data := by
  decide

theorem c9doc_shape (a u b : List Char) :
    c9doc a u b = "<head>\n".data ++ (c9tagViz a u b ++ "\n</head>".data) := by
  simp only [c9doc, c9v, c9M, c9tagViz, List.append_assoc, List.cons_append]
  rfl

theorem c9_viz_rule (a u b : List Char)
    (hag : ∀ c ∈ a, c ≠ '>') (huq : ∀ c ∈ u, c ≠ '"') (hug : ∀ c ∈ u, c ≠ '>')
    (hbg : ∀ c ∈ b, c ≠ '>')
    (hsrcA : occursL true "src".data (a ++ "sr".data) = false)
    (hsrcM : occursL true "src".data
      (("rc=\"https://".data ++ (u ++ ("/viz.js".data ++ ('"' :: b)))) ++ "><".data) = false)
    (hAviz : occursL true "/viz.js".data (u ++ "/viz.j".data) = false) :
    vizRule (c9doc a u b) =
      "<head>\n".data ++ (c9tagVizLocal a b ++ "\n</head>".data) := by
  have hm := c9_match_viz a u b hag huq hug hbg hsrcA hsrcM hAviz
  have hskip : ∀ i, i < ("<head>\n".data).length →
      matchAt (scriptRedirRE "/viz.js".data)
        (List.drop i ("<head>\n".data ++ c9v a u b)) = none := by
    intro i hi
    have h7 : ("<head>\n".data).length = 7 := rfl
    rw [h7] at hi
    interval_cases i <;> rfl
  have hn : 0 < (c9v a u b).length - ("\n</head>".data).length := by
    have hv := c9v_length a u b
    have h8 : ("\n</head>".data).length = 8 := rfl
    omega
  show applyRule (scriptRedirRE "/viz.js".data) (redirTmpl "./vendor/js/viz.js".data)
    ("<head>\n".data ++ c9v a u b) =
    "<head>\n".data ++ (c9tagVizLocal a b ++ "\n</head>".data)
  rw [applyRule_split hskip hm hn]
  rw [c9_dropv a u b, c9_tail_id]
  rw [c9cap1_eq a u b, c9cap2_eq b, redirTmpl_pair]
  simp only [c9tagVizLocal, List.append_assoc, List.cons_append]
  rfl

theorem c9F_match_fr (a u b : List Char)
    (hag : ∀ c ∈ a, c ≠ '>') (huq : ∀ c ∈ u, c ≠ '"') (hug : ∀ c ∈ u, c ≠ '>')
    (hbg : ∀ c ∈ b, c ≠ '>')
    (hsrcA : occursL true "src".data (a ++ "sr".data) = false)
    (hsrcM : occursL true "src".data
      (("rc=\"https://".data ++ (u ++ ("/full.render.js".data ++ ('"' :: b)))) ++ "><".data) = false)
    (hAfr : occursL true "/full.render.js".data (u ++ "/full.render.j".data) = false) :
    matchAt (scriptRedirRE "/full.render.js".data) (c9Fv a u b) =
      some ((c9Fv a u b).length - ("\n</head>".data).length,
        [c9Fcap1 a u b,
         (c9Fs5 b).take ((c9Fs5 b).length - ("\n</head>".data).length)]) := by
  have e1 : matchAt (scriptRedirRE "/full.render.js".data) (c9Fv a u b) =
      starRun notGt (c9FK1 a u b)
        ((a ++ c9FM u b) ++ ('>' :: '<' :: "/script>\n</head>".data)) := rfl
  rw [e1]
  rw [starGt_srcA a
    ("c=\"https://".data ++ (u ++ ("/full.render.js".data ++ ('"' :: b))))
    ("/script>\n</head>".data) (c9FM u b) rfl
    (fun s2 h => by simp only [c9FK1, seqs, List.foldr, mrun]; rw [h])
    hag
    (by intro c hc
        simp only [c9FM] at hc
        rcases List.mem_append.1 hc with h | h
        · exact (by decide : ∀ c ∈ "src=\"https://".data, c ≠ '>') c h
        · rcases List.mem_append.1 h with h2 | h2
          · exact hug c h2
          · rcases List.mem_append.1 h2 with h3 | h3
            · exact (by decide : ∀ c ∈ "/full.render.js".data, c ≠ '>') c h3
            · rcases List.mem_cons.1 h3 with rfl | h4
              · decide
              · exact hbg c h4)
    hsrcA hsrcM]
  have e2 : c9FK1 a u b (c9FM u b ++ ('>' :: '<' :: "/script>\n</head>".data)) =
      ((starRun notQuote (c9FK2 a u b)
        ((u ++ ("/full.render.js".data ++ ('"' :: b))) ++
          ('>' :: '<' :: "/script>\n</head>".data))) <|> none) := rfl
  rw [e2]
  have hassoc : (u ++ ("/full.render.js".data ++ ('"' :: b))) ++
      ('>' :: '<' :: "/script>\n</head>".data) =
      (u ++ "/full.render.js".data) ++
        ('"' :: (b ++ ('>' :: '<' :: "/script>\n</head>".data))) := by
    simp [List.append_assoc]
  rw [hassoc]
  rw [starStop_unique "/full.render.js".data u ['s'] '"'
    (b ++ ('>' :: '<' :: "/script>\n</head>".data))
    ("/full.render.js".data) rfl (by decide) (by decide) (by decide)
    (fun s2 h => by simp only [c9FK2, seqs, List.foldr, mrun]; rw [h])
    (by intro x hx; simp [notQuote, huq x hx])
    (by decide)
    hAfr (by decide)]
  have e3 : c9FK2 a u b
      ("/full.render.js".data ++ ('"' :: (b ++ ('>' :: '<' :: "/script>\n</head>".data)))) =
      starRun notGt (c9FK3 a u b)
        (b ++ ('>' :: '<' :: "/script>\n</head>".data)) := rfl
  rw [e3]
  have hout : starRun notGt (c9FK3 a u b)
      (b ++ ('>' :: '<' :: "/script>\n</head>".data)) =
      some ((c9Fv a u b).length - ("\n</head>".data).length,
        [c9Fcap1 a u b,
         (c9Fs5 b).take ((c9Fs5 b).length - ("\n</head>".data).length)]) := by
    rw [starRun_eval b _
      (by intro c hc; simp [notGt, hbg c hc])
      (by intro c w2 he; cases he; rfl)]
    exact tryTails_first_some _ _ rfl
  rw [hout]
  rfl

theorem c9Fv_split1 (a u b : List Char) :
    c9Fv a u b = ("<script ".data ++ (a ++ "src=\"".data)) ++ c9Fs3 u b := by
  simp only [c9Fv, c9FM, c9Fs3, List.append_assoc, List.cons_append]
  rfl

theorem c9Fcap1_eq (a u b : List Char) :
    c9Fcap1 a u b = "<script ".data ++ (a ++ "src=\"".data) := by
  unfold c9Fcap1
  rw [c9Fv_split1 a u b]
  rw [List.length_append]
  have h : ("<script ".data ++ (a ++ "src=\"".data)).length + (c9Fs3 u b).length -
      (c9Fs3 u b).length = ("<script ".data ++ (a ++ "src=\"".data)).length := by
    omega
  rw [h, List.take_left]

theorem c9Fs5_split (b : List Char) :
    c9Fs5 b = ('"' :: (b ++ "></script>".data)) ++ "\n</head>".data := by
  simp only [c9Fs5, List.cons_append, List.append_assoc]
  rfl

theorem c9Fcap2_eq (b : List Char) :
    (c9Fs5 b).take ((c9Fs5 b).length - ("\n</head>".data).length) =
      '"' :: (b ++ "></script>".data) := by
  rw [c9Fs5_split b, List.length_append]
  have h : ('"' :: (b ++ "></script>".data)).length + ("\n</head>".data).length -
      ("\n</head>".data).length = ('"' :: (b ++ "></script>".data)).length := by
    omega
  rw [h, List.take_left]

theorem c9Fv_split2 (a u b : List Char) :
    c9Fv a u b = ("<script ".data ++ ((a ++ c9FM u b) ++ ('>' :: '<' :: "/script>".data))) ++
      "\n</head>".data := by
  simp only [c9Fv, List.append_assoc, List.cons_append]
  rfl

theorem c9F_dropv (a u b : List Char) :
    (c9Fv a u b).drop ((c9Fv a u b).length - ("\n</head>".data).length) =
      "\n</head>".data := by
  rw [c9Fv_split2 a u b, List.length_append]
  have h : ("<script ".data ++ ((a ++ c9FM u b) ++ ('>' :: '<' :: "/script>".data))).length +
      ("\n</head>".data).length - ("\n</head>".data).length =
      ("<script ".data ++ ((a ++ c9FM u b) ++ ('>' :: '<' :: "/script>".data))).length := by
    omega
  rw [h, List.drop_left]

theorem c9Fv_length (a u b : List Char) :
    (c9Fv a u b).length = 55 + a.length + u.length + b.length := by
  have h8 : ("<script ".data).length = 8 := rfl
  have h13 : ("src=\"https://".data).length = 13 := rfl
  have h7 : ("/full.render.js".data).length = 15 := rfl
  have h16 : ("/script>\n</head>".data).length = 16 := rfl
  simp only [c9Fv, c9FM, List.length_append, List.length_cons, h8, h13, h7, h16]
  omega

set_option maxRecDepth 4000 in
theorem c9F_tail_id :
    applyRule (scriptRedirRE "/full.render.js".data) (redirTmpl "./vendor/js/full.render.js".data)
      "\n</head>".data = "\n</head>".data := by
  decide

theorem c9Fdoc_shape (a u b : List Char) :
    c9Fdoc a u b = "<head>\n".data ++ (c9FtagFr a u b ++ "\n</head>".data) := by
  simp only [c9Fdoc, c9Fv, c9FM, c9FtagFr, List.append_assoc, List.cons_append]
  rfl

theorem c9F_fr_rule (a u b : List Char)
    (hag : ∀ c ∈ a, c ≠ '>') (huq : ∀ c ∈ u, c ≠ '"') (hug : ∀ c ∈ u, c ≠ '>')
    (hbg : ∀ c ∈ b, c ≠ '>')
    (hsrcA : occursL true "src".data (a ++ "sr".data) = false)
    (hsrcM : occursL true "src".data
      (("rc=\"https://".data ++ (u ++ ("/full.render.js".data ++ ('"' :: b)))) ++ "><".data) = false)
    (hAfr : occursL true "/full.render.js".data (u ++ "/full.render.j".data) = false) :
    frenderRule (c9Fdoc a u b) =
      "<head>\n".data ++ (c9FtagFrLocal a b ++ "\n</head>".data) := by
  have hm := c9F_match_fr a u b hag huq hug hbg hsrcA hsrcM hAfr
  have hskip : ∀ i, i < ("<head>\n".data).length →
      matchAt (scriptRedirRE "/full.render.js".data)
        (List.drop i ("<head>\n".data ++ c9Fv a u b)) = none := by
    intro i hi
    have h7 : ("<head>\n".data).length = 7 := rfl
    rw [h7] at hi
    interval_cases i <;> rfl
  have hn : 0 < (c9Fv a u b).length - ("\n</head>".data).length := by
    have hv := c9Fv_length a u b
    have h8 : ("\n</head>".data).length = 8 := rfl
    omega
  show applyRule (scriptRedirRE "/full.render.js".data) (redirTmpl "./vendor/js/full.render.js".data)
    ("<head>\n".data ++ c9Fv a u b) =
    "<head>\n".data ++ (c9FtagFrLocal a b ++ "\n</head>".data)
  rw [applyRule_split hskip hm hn]
  rw [c9F_dropv a u b, c9F_tail_id]
  rw [c9Fcap1_eq a u b, c9Fcap2_eq b, redirTmpl_pair]
  simp only [c9FtagFrLocal, List.append_assoc, List.cons_append]
  rfl

/-- C9: with the mode flag set, a script tag whose `src` URL path ends in
`/viz.js` (respectively `/full.render.js`) — with any attribute text `a`
before `src`, any URL host/path `u` and any attribute text `b` after the
URL (all `>`-free, the URL quote-free, neither the letters `src` nor the
filename occurring elsewhere in the tag) — has only its URL replaced by
`./vendor/js/viz.js` (respectively `./vendor/js/full.render.js`); every
other character of the tag, including `a`, `b` and the closing tag, is
kept verbatim. -/
theorem c9_script_redirects (a u b a2 u2 b2 : List Char)
    (hag : ∀ c ∈ a, c ≠ '>') (huq : ∀ c ∈ u, c ≠ '"') (hug : ∀ c ∈ u, c ≠ '>')
    (hbg : ∀ c ∈ b, c ≠ '>')
    (hsrcA : occursL true "src".data (a ++ "sr".data) = false)
    (hsrcM : occursL true "src".data
      (("rc=\"https://".data ++ (u ++ ("/viz.js".data ++ ('"' :: b)))) ++ "><".data) = false)
    (hAviz : occursL true "/viz.js".data (u ++ "/viz.j".data) = false)
    (hag2 : ∀ c ∈ a2, c ≠ '>') (huq2 : ∀ c ∈ u2, c ≠ '"') (hug2 : ∀ c ∈ u2, c ≠ '>')
    (hbg2 : ∀ c ∈ b2, c ≠ '>')
    (hsrcA2 : occursL true "src".data (a2 ++ "sr".data) = false)
    (hsrcM2 : occursL true "src".data
      (("rc=\"https://".data ++ (u2 ++ ("/full.render.js".data ++ ('"' :: b2)))) ++ "><".data) = false)
    (hAfr2 : occursL true "/full.render.js".data (u2 ++ "/full.render.j".data) = false) :
    (c9doc a u b = "<head>\n".data ++ (c9tagViz a u b ++ "\n</head>".data) ∧
     vizRule (c9doc a u b) =
       "<head>\n".data ++ (c9tagVizLocal a b ++ "\n</head>".data)) ∧
    (c9Fdoc a2 u2 b2 = "<head>\n".data ++ (c9FtagFr a2 u2 b2 ++ "\n</head>".data) ∧
     frenderRule (c9Fdoc a2 u2 b2) =
       "<head>\n".data ++ (c9FtagFrLocal a2 b2 ++ "\n</head>".data)) :=
  ⟨⟨c9doc_shape a u b, c9_viz_rule a u b hag huq hug hbg hsrcA hsrcM hAviz⟩,
   ⟨c9Fdoc_shape a2 u2 b2,
    c9F_fr_rule a2 u2 b2 hag2 huq2 hug2 hbg2 hsrcA2 hsrcM2 hAfr2⟩⟩

/-- Witness for C9 at empty attribute texts and URL hosts. -/
theorem c9_script_redirects_w :
    (c9doc [] [] [] = "<head>\n".data ++ (c9tagViz [] [] [] ++ "\n</head>".data) ∧
     vizRule (c9doc [] [] []) =
       "<head>\n".data ++ (c9tagVizLocal [] [] ++ "\n</head>".data)) ∧
    (c9Fdoc [] [] [] = "<head>\n".data ++ (c9FtagFr [] [] [] ++ "\n</head>".data) ∧
     frenderRule (c9Fdoc [] [] []) =
       "<head>\n".data ++ (c9FtagFrLocal [] [] ++ "\n</head>".data)) :=
  c9_script_redirects [] [] [] [] [] []
    (by decide) (by decide) (by decide) (by decide) (by decide) (by decide)
    (by decide) (by decide) (by decide) (by decide) (by decide) (by decide)
    (by decide) (by decide)

theorem Matches_seq_inv {r1 r2 : RE} {t : List Char} {caps : List (List Char)}
    (h : Matches (.seq r1 r2) t caps) :
    ∃ t1 t2 c1 c2, t = t1 ++ t2 ∧ caps = c1 ++ c2 ∧
      Matches r1 t1 c1 ∧ Matches r2 t2 c2 := by
  cases h with
  | seq r1 r2 t1 t2 c1 c2 h1 h2 => exact ⟨t1, t2, c1, c2, rfl, rfl, h1, h2⟩

theorem Matches_eps_inv {t : List Char} {caps : List (List Char)}
    (h : Matches .eps t caps) : t = [] := by
  cases h
  rfl

theorem Matches_lit_inv {ci : Bool} {p t : List Char} {caps : List (List Char)}
    (h : Matches (.lit ci p) t caps) : litStrip ci p t = some [] := by
  cases h with
  | lit ci p t hls => exact hls

theorem Matches_cls_inv {q : Char → Bool} {t : List Char}
    {caps : List (List Char)} (h : Matches (.cls q) t caps) :
    ∃ c, t = [c] ∧ q c = true := by
  cases h with
  | cls q c hq => exact ⟨c, rfl, hq⟩

theorem Matches_star_inv {q : Char → Bool} {t : List Char}
    {caps : List (List Char)} (h : Matches (.star q) t caps) :
    ∀ c ∈ t, q c = true := by
  cases h with
  | star q t hq => exact hq

theorem Matches_opt_inv {r : RE} {t : List Char} {caps : List (List Char)}
    (h : Matches (.opt r) t caps) : t = [] ∨ Matches r t caps := by
  cases h with
  | optSome r t caps hm => exact Or.inr hm
  | optNone r => exact Or.inl rfl

theorem sptab_ne_gt {c : Char} (h : sptab c = true) : c ≠ '>' := by
  intro hc
  subst hc
  exact absurd h (by decide)

theorem jsWs_ne_gt {c : Char} (h : jsWs c = true) : c ≠ '>' := by
  intro hc
  subst hc
  exact absurd h (by decide)

theorem notGt_ne {c : Char} (h : notGt c = true) : c ≠ '>' := by
  simpa [notGt] using h

theorem notQuote_ne {c : Char} (h : notQuote c = true) : c ≠ '"' := by
  simpa [notQuote] using h

theorem chEq_gt_in {c : Char} (h : chEq true '>' c = true) : c = '>' :=
  lc_eq_of_not_lower (by decide) (chEq_true_elim h)

theorem chEq_nl_in {c : Char} (h : chEq true '\n' c = true) : c = '\n' :=
  lc_eq_of_not_lower (by decide) (chEq_true_elim h)

theorem litStrip_all_ne {ch : Char} : ∀ {p : List Char},
    (∀ x ∈ p, chEq true x ch = false) →
    ∀ {t : List Char}, litStrip true p t = some [] →
    ∀ c ∈ t, c ≠ ch := by
  intro p
  induction p with
  | nil =>
    intro _ t h
    simp only [litStrip, Option.some.injEq] at h
    subst h
    intro c hc
    simp at hc
  | cons a ps ih =>
    intro hp t h
    cases t with
    | nil => simp [litStrip] at h
    | cons c cs =>
      simp only [litStrip] at h
      cases hac : chEq true a c with
      | false => rw [hac] at h; simp at h
      | true =>
        rw [hac] at h
        simp only [if_pos] at h
        intro c0 hc0
        rcases List.mem_cons.1 hc0 with rfl | h2
        · intro hcc
          subst hcc
          exact absurd hac (by simp [hp a (by simp)])
        · exact ih (fun x hx => hp x (by simp [hx])) h c0 h2

theorem litStrip_single_eq {d : Char} (hd : ∀ c, chEq true d c = true → c = d) :
    ∀ {t : List Char}, litStrip true [d] t = some [] → t = [d] := by
  intro t h
  cases t with
  | nil => simp [litStrip] at h
  | cons c cs =>
    simp only [litStrip] at h
    cases hce : chEq true d c with
    | false => rw [hce] at h; simp at h
    | true =>
      rw [hce] at h
      simp only [if_pos, litStrip, Option.some.injEq] at h
      subst h
      rw [hd c hce]

theorem litStrip_quote_eq {t : List Char}
    (h : litStrip true "\"".data t = some []) : t = ['"'] :=
  litStrip_single_eq (fun _ h2 => chEq_quote_in h2) h

theorem litStrip_gt_eq {t : List Char}
    (h : litStrip true ">".data t = some []) : t = ['>'] :=
  litStrip_single_eq (fun _ h2 => chEq_gt_in h2) h

theorem litStrip_nl_eq {t : List Char}
    (h : litStrip true "\n".data t = some []) : t = ['\n'] :=
  litStrip_single_eq (fun _ h2 => chEq_nl_in h2) h

theorem linkDel_shape (marker : List Char)
    (hmk : ∀ x ∈ marker, chEq true x '"' = false) :
    ∀ t caps, Matches (linkDelRE marker) t caps → linkDelShape t := by
  intro t caps h
  simp only [linkDelRE, seqs, List.foldr] at h
  obtain ⟨a1, b1, _, _, rfl, _, h1, h⟩ := Matches_seq_inv h
  obtain ⟨a2, b2, _, _, rfl, _, h2, h⟩ := Matches_seq_inv h
  obtain ⟨a3, b3, _, _, rfl, _, h3, h⟩ := Matches_seq_inv h
  obtain ⟨a4, b4, _, _, rfl, _, h4, h⟩ := Matches_seq_inv h
  obtain ⟨a5, b5, _, _, rfl, _, h5, h⟩ := Matches_seq_inv h
  obtain ⟨a6, b6, _, _, rfl, _, h6, h⟩ := Matches_seq_inv h
  obtain ⟨a7, b7, _, _, rfl, _, h7, h⟩ := Matches_seq_inv h
  obtain ⟨a8, b8, _, _, rfl, _, h8, h⟩ := Matches_seq_inv h
  obtain ⟨a9, b9, _, _, rfl, _, h9, h⟩ := Matches_seq_inv h
  obtain ⟨a10, b10, _, _, rfl, _, h10, h⟩ := Matches_seq_inv h
  obtain ⟨a11, b11, _, _, rfl, _, h11, h⟩ := Matches_seq_inv h
  obtain ⟨a12, b12, _, _, rfl, _, h12, h⟩ := Matches_seq_inv h
  obtain ⟨a13, b13, _, _, rfl, _, h13, h⟩ := Matches_seq_inv h
  obtain ⟨a14, b14, _, _, rfl, _, h14, h⟩ := Matches_seq_inv h
  obtain ⟨a15, b15, _, _, rfl, _, h15, h⟩ := Matches_seq_inv h
  obtain ⟨a16, b16, _, _, rfl, _, h16, h⟩ := Matches_seq_inv h
  obtain ⟨a17, b17, _, _, rfl, _, h17, h⟩ := Matches_seq_inv h
  obtain ⟨a18, b18, _, _, rfl, _, h18, h⟩ := Matches_seq_inv h
  obtain ⟨a19, b19, _, _, rfl, _, h19, h⟩ := Matches_seq_inv h
  obtain ⟨a20, b20, _, _, rfl, _, h20, h⟩ := Matches_seq_inv h
  obtain ⟨a21, b21, _, _, rfl, _, h21, h⟩ := Matches_seq_inv h
  have hb := Matches_eps_inv h
  subst hb
  have hq9 := litStrip_quote_eq (Matches_lit_inv h9)
  subst hq9
  have hq16 := litStrip_quote_eq (Matches_lit_inv h16)
  subst hq16
  have hg19 := litStrip_gt_eq (Matches_lit_inv h19)
  subst hg19
  obtain ⟨c3, rfl, hc3⟩ := Matches_cls_inv h3
  have f1 : ∀ c ∈ a1, c ≠ '>' := fun c hc => sptab_ne_gt (Matches_star_inv h1 c hc)
  have f2 : ∀ c ∈ a2, c ≠ '>' := litStrip_all_ne (by decide) (Matches_lit_inv h2)
  have f3 : c3 ≠ '>' := jsWs_ne_gt hc3
  have f4 : ∀ c ∈ a4, c ≠ '>' := fun c hc => notGt_ne (Matches_star_inv h4 c hc)
  have f5 : ∀ c ∈ a5, c ≠ '>' := litStrip_all_ne (by decide) (Matches_lit_inv h5)
  have f6 : ∀ c ∈ a6, c ≠ '>' := fun c hc => jsWs_ne_gt (Matches_star_inv h6 c hc)
  have f7 : ∀ c ∈ a7, c ≠ '>' := litStrip_all_ne (by decide) (Matches_lit_inv h7)
  have f8 : ∀ c ∈ a8, c ≠ '>' := fun c hc => jsWs_ne_gt (Matches_star_inv h8 c hc)
  have f10 : ∀ c ∈ a10, c ≠ '"' := litStrip_all_ne (by decide) (Matches_lit_inv h10)
  have f11 : ∀ c ∈ a11, c ≠ '"' := by
    rcases Matches_opt_inv h11 with rfl | hm
    · intro c hc; simp at hc
    · exact litStrip_all_ne (by decide) (Matches_lit_inv hm)
  have f12 : ∀ c ∈ a12, c ≠ '"' := litStrip_all_ne (by decide) (Matches_lit_inv h12)
  have f13 : ∀ c ∈ a13, c ≠ '"' := fun c hc => notQuote_ne (Matches_star_inv h13 c hc)
  have f14 : ∀ c ∈ a14, c ≠ '"' := litStrip_all_ne hmk (Matches_lit_inv h14)
  have f15 : ∀ c ∈ a15, c ≠ '"' := fun c hc => notQuote_ne (Matches_star_inv h15 c hc)
  have f17 : ∀ c ∈ a17, c ≠ '>' := fun c hc => notGt_ne (Matches_star_inv h17 c hc)
  have f18 : ∀ c ∈ a18, c ≠ '>' := by
    rcases Matches_opt_inv h18 with rfl | hm
    · intro c hc; simp at hc
    · exact litStrip_all_ne (by decide) (Matches_lit_inv hm)
  have f20 : ∀ c ∈ a20, jsWs c = true := Matches_star_inv h20
  have f21 : ∀ c ∈ a21, jsWs c = true := by
    rcases Matches_opt_inv h21 with rfl | hm
    · intro c hc; simp at hc
    · have hnl := litStrip_nl_eq (Matches_lit_inv hm)
      subst hnl
      intro c hc
      rcases List.mem_singleton.1 hc with rfl
      decide
  refine ⟨a1 ++ (a2 ++ ([c3] ++ (a4 ++ (a5 ++ (a6 ++ (a7 ++ a8)))))),
    a10 ++ (a11 ++ (a12 ++ (a13 ++ (a14 ++ a15)))),
    a17 ++ a18, a20 ++ a21, ?_, ?_, ?_, ?_, ?_⟩
  · simp [List.append_assoc]
  · intro c hc
    simp only [List.mem_append, List.mem_singleton] at hc
    rcases hc with h | h | rfl | h | h | h | h | h
    · exact f1 c h
    · exact f2 c h
    · exact f3
    · exact f4 c h
    · exact f5 c h
    · exact f6 c h
    · exact f7 c h
    · exact f8 c h
  · intro c hc
    simp only [List.mem_append] at hc
    rcases hc with h | h | h | h | h | h
    · exact f10 c h
    · exact f11 c h
    · exact f12 c h
    · exact f13 c h
    · exact f14 c h
    · exact f15 c h
  · intro c hc
    rcases List.mem_append.1 hc with h | h
    · exact f17 c h
    · exact f18 c h
  · intro c hc
    rcases List.mem_append.1 hc with h | h
    · exact f20 c h
    · exact f21 c h

theorem reactPdf_shape :
    ∀ t caps, Matches reactPdfRE t caps → linkDelShape t := by
  intro t caps h
  simp only [reactPdfRE, seqs, List.foldr] at h
  obtain ⟨a1, b1, _, _, rfl, _, h1, h⟩ := Matches_seq_inv h
  obtain ⟨a2, b2, _, _, rfl, _, h2, h⟩ := Matches_seq_inv h
  obtain ⟨a3, b3, _, _, rfl, _, h3, h⟩ := Matches_seq_inv h
  obtain ⟨a4, b4, _, _, rfl, _, h4, h⟩ := Matches_seq_inv h
  obtain ⟨a5, b5, _, _, rfl, _, h5, h⟩ := Matches_seq_inv h
  obtain ⟨a6, b6, _, _, rfl, _, h6, h⟩ := Matches_seq_inv h
  obtain ⟨a7, b7, _, _, rfl, _, h7, h⟩ := Matches_seq_inv h
  obtain ⟨a8, b8, _, _, rfl, _, h8, h⟩ := Matches_seq_inv h
  obtain ⟨a9, b9, _, _, rfl, _, h9, h⟩ := Matches_seq_inv h
  obtain ⟨a10, b10, _, _, rfl, _, h10, h⟩ := Matches_seq_inv h
  obtain ⟨a11, b11, _, _, rfl, _, h11, h⟩ := Matches_seq_inv h
  obtain ⟨a12, b12, _, _, rfl, _, h12, h⟩ := Matches_seq_inv h
  obtain ⟨a13, b13, _, _, rfl, _, h13, h⟩ := Matches_seq_inv h
  obtain ⟨a14, b14, _, _, rfl, _, h14, h⟩ := Matches_seq_inv h
  obtain ⟨a15, b15, _, _, rfl, _, h15, h⟩ := Matches_seq_inv h
  obtain ⟨a16, b16, _, _, rfl, _, h16, h⟩ := Matches_seq_inv h
  obtain ⟨a17, b17, _, _, rfl, _, h17, h⟩ := Matches_seq_inv h
  obtain ⟨a18, b18, _, _, rfl, _, h18, h⟩ := Matches_seq_inv h
  obtain ⟨a19, b19, _, _, rfl, _, h19, h⟩ := Matches_seq_inv h
  obtain ⟨a20, b20, _, _, rfl, _, h20, h⟩ := Matches_seq_inv h
  have hb := Matches_eps_inv h
  subst hb
  have hq9 := litStrip_quote_eq (Matches_lit_inv h9)
  subst hq9
  have hq15 := litStrip_quote_eq (Matches_lit_inv h15)
  subst hq15
  have hg18 := litStrip_gt_eq (Matches_lit_inv h18)
  subst hg18
  obtain ⟨c3, rfl, hc3⟩ := Matches_cls_inv h3
  have f1 : ∀ c ∈ a1, c ≠ '>' := fun c hc => sptab_ne_gt (Matches_star_inv h1 c hc)
  have f2 : ∀ c ∈ a2, c ≠ '>' := litStrip_all_ne (by decide) (Matches_lit_inv h2)
  have f3 : c3 ≠ '>' := jsWs_ne_gt hc3
  have f4 : ∀ c ∈ a4, c ≠ '>' := fun c hc => notGt_ne (Matches_star_inv h4 c hc)
  have f5 : ∀ c ∈ a5, c ≠ '>' := litStrip_all_ne (by decide) (Matches_lit_inv h5)
  have f6 : ∀ c ∈ a6, c ≠ '>' := fun c hc => jsWs_ne_gt (Matches_star_inv h6 c hc)
  have f7 : ∀ c ∈ a7, c ≠ '>' := litStrip_all_ne (by decide) (Matches_lit_inv h7)
  have f8 : ∀ c ∈ a8, c ≠ '>' := fun c hc => jsWs_ne_gt (Matches_star_inv h8 c hc)
  have f10 : ∀ c ∈ a10, c ≠ '"' := litStrip_all_ne (by decide) (Matches_lit_inv h10)
  have f11 : ∀ c ∈ a11, c ≠ '"' := by
    rcases Matches_opt_inv h11 with rfl | hm
    · intro c hc; simp at hc
    · exact litStrip_all_ne (by decide) (Matches_lit_inv hm)
  have f12 : ∀ c ∈ a12, c ≠ '"' := litStrip_all_ne (by decide) (Matches_lit_inv h12)
  have f13 : ∀ c ∈ a13, c ≠ '"' := fun c hc => notQuote_ne (Matches_star_inv h13 c hc)
  have f14 : ∀ c ∈ a14, c ≠ '"' := litStrip_all_ne (by decide) (Matches_lit_inv h14)
  have f16 : ∀ c ∈ a16, c ≠ '>' := fun c hc => notGt_ne (Matches_star_inv h16 c hc)
  have f17 : ∀ c ∈ a17, c ≠ '>' := by
    rcases Matches_opt_inv h17 with rfl | hm
    · intro c hc; simp at hc
    · exact litStrip_all_ne (by decide) (Matches_lit_inv hm)
  have f19 : ∀ c ∈ a19, jsWs c = true := Matches_star_inv h19
  have f20 : ∀ c ∈ a20, jsWs c = true := by
    rcases Matches_opt_inv h20 with rfl | hm
    · intro c hc; simp at hc
    · have hnl := litStrip_nl_eq (Matches_lit_inv hm)
      subst hnl
      intro c hc
      rcases List.mem_singleton.1 hc with rfl
      decide
  refine ⟨a1 ++ (a2 ++ ([c3] ++ (a4 ++ (a5 ++ (a6 ++ (a7 ++ a8)))))),
    a10 ++ (a11 ++ (a12 ++ (a13 ++ a14))),
    a16 ++ a17, a19 ++ a20, ?_, ?_, ?_, ?_, ?_⟩
  · simp [List.append_assoc]
  · intro c hc
    simp only [List.mem_append, List.mem_singleton] at hc
    rcases hc with h | h | rfl | h | h | h | h | h
    · exact f1 c h
    · exact f2 c h
    · exact f3
    · exact f4 c h
    · exact f5 c h
    · exact f6 c h
    · exact f7 c h
    · exact f8 c h
  · intro c hc
    simp only [List.mem_append] at hc
    rcases hc with h | h | h | h | h
    · exact f10 c h
    · exact f11 c h
    · exact f12 c h
    · exact f13 c h
    · exact f14 c h
  · intro c hc
    rcases List.mem_append.1 hc with h | h
    · exact f16 c h
    · exact f17 c h
  · intro c hc
    rcases List.mem_append.1 hc with h | h
    · exact f19 c h
    · exact f20 c h

/-- C8: every match of the three link-deletion regexes decomposes as a
single-tag span — text with no `>` up to the opening quote of the href
value, the quoted value (no inner `"`), attribute text with no `>`, one
closing `>` and trailing whitespace — so a match never extends past a `>`
occurring outside the quoted href value. -/
theorem c8_link_deletion_single_tag (t : List Char) (caps : List (List Char))
    (h : Matches (linkDelRE "font-awesome".data) t caps ∨
         Matches (linkDelRE "katex".data) t caps ∨
         Matches reactPdfRE t caps) :
    linkDelShape t := by
  rcases h with h | h | h
  · exact linkDel_shape "font-awesome".data (by decide) t caps h
  · exact linkDel_shape "katex".data (by decide) t caps h
  · exact reactPdf_shape t caps h

/-- Witness for C8 on a concrete matched font-awesome link tag. -/
theorem c8_link_deletion_single_tag_w :
    linkDelShape "<link href=\"https://x/font-awesome\">".data := by
  have hm : matchAt (linkDelRE "font-awesome".data)
      "<link href=\"https://x/font-awesome\">".data =
      some (("<link href=\"https://x/font-awesome\">".data).length, []) := by
    decide
  obtain ⟨t, s2, hs, hn, hM⟩ := matchAt_sound hm
  have hlen : s2.length = 0 := by
    have h2 := congrArg List.length hs
    rw [List.length_append] at h2
    omega
  have hs2 : s2 = [] := List.eq_nil_of_length_eq_zero hlen
  subst hs2
  rw [List.append_nil] at hs
  subst hs
  exact c8_link_deletion_single_tag _ [] (Or.inl hM)

/-- The lazy `[\s\S]*?` bounded by `</script>` stops at the first closing
tag: the continuation fails at every position strictly inside `J`
(`hJ` forbids an occurrence of the closing tag there, padding included),
and succeeds at the boundary. -/
theorem lazyScript_stop {β : Type} {K : List Char → Option β} {out : β} :
    ∀ (J w2 : List Char),
    (∀ s2, litStrip true "</script>".data s2 = none → K s2 = none) →
    occursL true "</script>".data (J ++ "</script".data) = false →
    K ("</script>".data ++ w2) = some out →
    lazyRun anyChar K (J ++ ("</script>".data ++ w2)) = some out := by
  intro J
  induction J with
  | nil =>
    intro w2 _ _ hK
    show lazyRun anyChar K ([] ++ ("</script>".data ++ w2)) = some out
    rw [List.nil_append]
    have e : lazyRun anyChar K ("</script>".data ++ w2) =
        (K ("</script>".data ++ w2) <|>
          lazyRun anyChar K ("/script>".data ++ w2)) := rfl
    rw [e, hK]
    rfl
  | cons c J ih =>
    intro w2 hsh hJ hK
    show lazyRun anyChar K ((c :: J) ++ ("</script>".data ++ w2)) = some out
    have e : lazyRun anyChar K ((c :: J) ++ ("</script>".data ++ w2)) =
        (K ((c :: J) ++ ("</script>".data ++ w2)) <|>
          lazyRun anyChar K (J ++ ("</script>".data ++ w2))) := rfl
    rw [e]
    have hfail : K ((c :: J) ++ ("</script>".data ++ w2)) = none := by
      apply hsh
      cases hls : litStrip true "</script>".data
          ((c :: J) ++ ("</script>".data ++ w2)) with
      | none => rfl
      | some r =>
        exfalso
        have hshape : (c :: J) ++ ("</script>".data ++ w2) =
            ((c :: J) ++ "</script".data) ++ ('>' :: w2) := by
          simp only [List.cons_append, List.append_assoc]
          rfl
        have hst : startsL true "</script>".data
            (((c :: J) ++ "</script".data) ++ ('>' :: w2)) = true := by
          unfold startsL
          rw [← hshape, hls]
          rfl
        have hst2 := startsL_confined hst
          (by simp only [List.length_append, List.length_cons]; omega)
        have := occursL_of_startsL hst2
        rw [hJ] at this
        exact absurd this (by simp)
    rw [hfail]
    have hJ2 : occursL true "</script>".data (J ++ "</script".data) = false := by
      revert hJ
      simp only [List.cons_append, occursL]
      intro hJ
      exact (Bool.or_eq_false_iff.1 hJ).2
    exact ih w2 hsh hJ2 hK

theorem c5_match_eval (J post : List Char)
    (hJ : occursL true "</script>".data (('>' :: J) ++ "</script".data) = false)
    (hpost : ∀ c w, post = c :: w → jsWs c = false) :
    matchAt importmapRE (c5v J post) =
      some ((c5v J post).length - post.length, []) := by
  have hln : litStrip true "\n".data post = none := by
    cases post with
    | nil => rfl
    | cons c w =>
      have hcw := hpost c w rfl
      have hch : chEq true '\n' c = false := by
        cases hch2 : chEq true '\n' c with
        | false => rfl
        | true =>
          have := chEq_nl_in hch2
          subst this
          exact absurd hcw (by decide)
      exact litStrip_head_ne hch
  have hKpost : c5K2 J post post =
      some ((c5v J post).length - post.length, []) := by
    simp only [c5K2, seqs, List.foldr, mrunNC]
    rw [hln]
    rfl
  have hK : c5K1 J post ("</script>".data ++ ('\n' :: post)) =
      some ((c5v J post).length - post.length, []) := by
    have e2 : c5K1 J post ("</script>".data ++ ('\n' :: post)) =
        starRun jsWs (c5K2 J post) (['\n'] ++ post) := rfl
    rw [e2, starRun_eval ['\n'] post (by decide) (fun c w he => hpost c w he)]
    exact tryTails_first_some _ _ hKpost
  rw [matchAt_NC (by rfl) (c5v J post)]
  have e1 : mrunNC importmapRE (c5v J post)
      (fun s2 => some ((c5v J post).length - s2.length, ([] : List (List Char)))) =
      (((lazyRun anyChar (c5K1 J post)
        (('>' :: J) ++ ("</script>".data ++ ('\n' :: post)))) <|> none) <|> none) := rfl
  rw [e1]
  rw [lazyScript_stop ('>' :: J) ('\n' :: post)
    (fun s2 h => by simp only [c5K1, seqs, List.foldr, mrunNC]; rw [h])
    hJ hK]
  rfl

theorem c5doc_shape (J post : List Char) :
    c5doc J post = "<head>\n  ".data ++ (c5tag J ++ ('\n' :: post)) := by
  simp only [c5doc, c5v, c5tag, List.append_assoc, List.cons_append]
  rfl

theorem c5v_split (J post : List Char) :
    c5v J post =
      ("  <script type=\"importmap\">".data ++ (J ++ "</script>\n".data)) ++ post := by
  simp only [c5v, List.append_assoc]

theorem c5v_length (J post : List Char) :
    (c5v J post).length = 37 + J.length + post.length := by
  have h27 : ("  <script type=\"importmap\">".data).length = 27 := rfl
  have h10 : ("</script>\n".data).length = 10 := rfl
  simp only [c5v, List.length_append, h27, h10]
  omega

theorem c5_drop (J post : List Char) :
    (c5v J post).drop ((c5v J post).length - post.length) = post := by
  rw [c5v_split J post, List.length_append]
  have h : ("  <script type=\"importmap\">".data ++ (J ++ "</script>\n".data)).length +
      post.length - post.length =
      ("  <script type=\"importmap\">".data ++ (J ++ "</script>\n".data)).length := by
    omega
  rw [h, List.drop_left]

/-- C5: with the mode flag set, a document holding an importmap script
block with arbitrary multi-line body `J` (any text not containing a
closing script tag) and arbitrary later content `post` (not headed by
whitespace) has the entire block deleted across all its lines, with the
non-greedy body match bounded by the first closing `</script>` tag: the
later content survives verbatim, and when the block was the document's
only occurrence of `importmap` the output contains zero occurrences of
it. -/
theorem c5_importmap_deleted (J post : List Char)
    (hJ : occursL true "</script>".data (('>' :: J) ++ "</script".data) = false)
    (hpost : ∀ c w, post = c :: w → jsWs c = false)
    (hocc : occursL true "importmap".data ("<head>\n".data ++ post) = false) :
    c5doc J post = "<head>\n  ".data ++ (c5tag J ++ ('\n' :: post)) ∧
    importmapRule (c5doc J post) = "<head>\n".data ++ post ∧
    occursL true "importmap".data (importmapRule (c5doc J post)) = false := by
  have hm := c5_match_eval J post hJ hpost
  have hskip : ∀ i, i < ("<head>\n".data).length →
      matchAt importmapRE (List.drop i ("<head>\n".data ++ c5v J post)) = none := by
    intro i hi
    have h7 : ("<head>\n".data).length = 7 := rfl
    rw [h7] at hi
    interval_cases i <;> rfl
  have hn : 0 < (c5v J post).length - post.length := by
    have hv := c5v_length J post
    omega
  have hpo : occursL true "importmap".data post = false := by
    cases h2 : occursL true "importmap".data post with
    | false => rfl
    | true =>
      have := occursL_app_right "<head>\n".data h2
      rw [hocc] at this
      exact absurd this (by simp)
  have hmain : importmapRule (c5doc J post) = "<head>\n".data ++ post := by
    show applyRule importmapRE (fun _ => []) ("<head>\n".data ++ c5v J post) =
      "<head>\n".data ++ post
    rw [applyRule_split hskip hm hn]
    rw [c5_drop J post]
    have ht : applyRule importmapRE (fun _ => []) post = post := importmapRule_id hpo
    rw [ht]
    rfl
  refine ⟨c5doc_shape J post, hmain, ?_⟩
  rw [hmain]
  exact hocc

/-- Witness for C5 at a two-line JSON body and a closing head tag as the
later content. -/
theorem c5_importmap_deleted_w :
    c5doc "\n  [\"react\"]\n  ".data "</head>".data =
      "<head>\n  ".data ++ (c5tag "\n  [\"react\"]\n  ".data ++
        ('\n' :: "</head>".data)) ∧
    importmapRule (c5doc "\n  [\"react\"]\n  ".data "</head>".data) =
      "<head>\n".data ++ "</head>".data ∧
    occursL true "importmap".data
      (importmapRule (c5doc "\n  [\"react\"]\n  ".data "</head>".data)) = false :=
  c5_importmap_deleted "\n  [\"react\"]\n  ".data "</head>".data
    (by decide) (by intro c w h; cases h; decide) (by decide)

-- THMS-END

end AMC
